import Mathlib

/-!
Verification of the IDN decoding engine (`src/encoding/idn` of the
`alexfrydl/indigo` repository) against its natural-language specification.

The Rust source is shallowly embedded: every definition below is translated
from a named function or type of the source tree.  Machine integers are
modelled as `Nat`/`Int` with explicit bounds where overflow matters; fallible
code returns `Except`-like sums; `panic!`/`unwrap`/`unreachable!` sites are
modelled as a distinguished `panic` result constructor.  Shared mutable state
(the context's single error list, shared by every sub-reader of one parse) is
modelled by explicitly threading the error list through each operation, which
is faithful because the engine is synchronous and single-threaded.
-/

namespace Idn

/-! ## Positions and spans (`src/encoding/idn/span.rs`) -/

/-- `Pos` from `span.rs`: byte offset plus 1-based line and column.
Equality and ordering in the source compare only `offset`. -/
structure Pos where
  offset : Nat
  line : Nat
  column : Nat
deriving Repr, DecidableEq

instance : Inhabited Pos := ⟨⟨0, 1, 1⟩⟩

/-- `Pos::default`: offset 0, line 1, column 1. -/
def Pos.zero : Pos := ⟨0, 1, 1⟩

/-- `Pos::advance`: advance the position by one character.  The source adds
`c.len_utf8()` to the offset; `Char.utf8Size` is the same quantity. -/
def Pos.advance (p : Pos) (c : Char) : Pos :=
  if c = '\n' then
    { offset := p.offset + c.utf8Size, line := p.line + 1, column := 1 }
  else
    { offset := p.offset + c.utf8Size, line := p.line, column := p.column + 1 }

/-- `Pos::advance_str`: advance over every character of a string. -/
def Pos.advanceList (p : Pos) (cs : List Char) : Pos :=
  cs.foldl Pos.advance p

/-- `cmp::min` under the source's `Ord for Pos` (offset only; first argument
returned on ties, as `cmp::min` does). -/
def Pos.min (a b : Pos) : Pos :=
  if a.offset ≤ b.offset then a else b

/-- `cmp::max` under the source's `Ord for Pos` (offset only; second argument
returned on ties, as `cmp::max` does). -/
def Pos.max (a b : Pos) : Pos :=
  if b.offset < a.offset then a else b

/-- `Span` from `span.rs`. -/
structure Span where
  start : Pos
  stop : Pos
deriving Repr, DecidableEq

instance : Inhabited Span := ⟨⟨Pos.zero, Pos.zero⟩⟩

/-- `Span::from(Pos)`: a zero-length span at one position. -/
def Span.ofPos (p : Pos) : Span := ⟨p, p⟩

/-- `Add for Span`: union, `{min(start), max(end)}`. -/
def Span.union (a b : Span) : Span :=
  ⟨Pos.min a.start b.start, Pos.max a.stop b.stop⟩

/-- `Span::last_line`: when the end column is 1 the true last occupied line is
one less, clamped to the start's line. -/
def Span.lastLine (s : Span) : Nat :=
  match s.stop.column with
  | 1 => Nat.max (s.stop.line - 1) s.start.line
  | _ => s.stop.line

/-! ## Tokens (`src/encoding/idn/syn/...`) -/

/-- `syn::Delimiter`. -/
structure Delimiter where
  span : Span
  value : Char
deriving Repr, DecidableEq

/-- `Delimiter::rev_char`. -/
def Delimiter.revChar (c : Char) : Char :=
  match c with
  | '(' => ')'
  | '[' => ']'
  | '{' => '}'
  | ')' => '('
  | ']' => '['
  | '}' => '{'
  | other => other

/-- `Delimiter::as_rev_char`. -/
def Delimiter.asRevChar (d : Delimiter) : Char := Delimiter.revChar d.value

/-- `Delimiter::is_open`. -/
def Delimiter.isOpen (d : Delimiter) : Bool :=
  d.value = '(' ∨ d.value = '[' ∨ d.value = '{'

/-- `syn::Float`.  The source stores the parsed `f64`; floating-point values
are never inspected by the properties below, so the matched source text is
stored instead of the bit-level float (the lexer guarantees the text has the
shape digits / `.`-digits / exponent, for which `f64::from_str` succeeds). -/
structure Float' where
  span : Span
  src : List Char
deriving Repr, DecidableEq

/-- `syn::Integer`: a `u64` magnitude, modelled as `Nat` (the lexer only
creates values below `2^64`). -/
structure Integer where
  span : Span
  value : Nat
deriving Repr, DecidableEq

/-- `syn::Number`. -/
inductive Number where
  | float (f : Float')
  | integer (i : Integer)
deriving Repr, DecidableEq

/-- `Number::span`. -/
def Number.span : Number → Span
  | .float f => f.span
  | .integer i => i.span

/-- `syn::StringLiteral`. -/
structure StringLiteral where
  span : Span
  value : List Char
deriving Repr, DecidableEq

/-- `syn::Symbol`. -/
structure Symbol where
  span : Span
  value : Char
deriving Repr, DecidableEq

/-- `syn::Word`. -/
structure Word where
  span : Span
  value : List Char
deriving Repr, DecidableEq

/-- `syn::Token`. -/
inductive Token where
  | delimiter (d : Delimiter)
  | number (n : Number)
  | stringLiteral (s : StringLiteral)
  | symbol (s : Symbol)
  | word (w : Word)
deriving Repr, DecidableEq

/-- `Token::span`. -/
def Token.span : Token → Span
  | .delimiter d => d.span
  | .number n => n.span
  | .stringLiteral s => s.span
  | .symbol s => s.span
  | .word w => w.span

/-! ## Errors (`src/encoding/idn/error.rs`) -/

/-- `idn::Error`: a message and the span it refers to. -/
structure Error where
  span : Span
  message : List Char
deriving Repr, DecidableEq

/-- `idn::ErrorList`, an ordered append-only sequence. -/
abbrev ErrorList := List Error

/-! ## Lexer (`src/encoding/idn/lex.rs`)

The lexer is embedded as pure recursive functions over the remaining input
(`List Char`) and the current `Pos`.  The source's `self.source(span)` slices
are reproduced by accumulating the consumed characters.  Fatal errors are the
`Except.error` branch; non-fatal (accumulated) errors are threaded where the
source adds to `self.errors` (only string-escape recovery does). -/

/-- Helper: a message string as a character list. -/
def msg (s : String) : List Char := s.data

/-- Rendering of one character inside an error message.  The source formats
characters through `fmt::AsDescription`, whose module (`src/fmt.rs`) is not
present in the source tree; the exact rendering never decides a property
below, so the bare character stands in for its description. -/
def describeChar (c : Char) : List Char := [c]

/-- `Word::is_start_char`.  `unicode_xid::is_xid_start` is an external crate;
its ASCII fragment (letters; `_` is *not* XID-start) is modelled, which is
faithful for every input considered below. -/
def isWordStart (c : Char) : Bool := c = '$' ∨ c = '@' ∨ c = '#' ∨ c.isAlpha

/-- `Word::is_continue_char` (ASCII fragment of `is_xid_continue`). -/
def isWordContinue (c : Char) : Bool :=
  c = '$' ∨ c = '@' ∨ c = '#' ∨ c.isAlphanum ∨ c = '_'

/-- The fixed symbol set of `Lexer::read_symbol_token`. -/
def isSymbolChar (c : Char) : Bool :=
  c = '!' ∨ c = '%' ∨ c = '&' ∨ c = '*' ∨ c = ',' ∨ c = '.' ∨ c = '/' ∨
  c = '\\' ∨ c = ':' ∨ c = ';' ∨ c = '<' ∨ c = '>' ∨ c = '=' ∨ c = '?' ∨
  c = '^' ∨ c = '+' ∨ c = '-'

/-- `Lexer::peek_str_exact`, specialised to a literal character list. -/
def peekStr : List Char → List Char → Bool
  | [], _ => true
  | _ :: _, [] => false
  | a :: as, b :: bs => a = b && peekStr as bs

/-- `Lexer::peek_char_exact`. -/
def peekCharExact (c : Char) (rest : List Char) : Bool := rest.head? = some c

/-- `Lexer::peek_number_decimal`: a `.` followed by at least one digit. -/
def peekNumberDecimal (rest : List Char) : Bool :=
  match rest with
  | '.' :: d :: _ => d.isDigit
  | _ => false

/-- `Lexer::read_char`: consume one character, producing its span. -/
def readChar (rest : List Char) (pos : Pos) :
    Except Error (Char × Span × List Char × Pos) :=
  match rest with
  | [] => .error ⟨Span.ofPos pos, msg ("Unexpected end of input.")⟩
  | c :: rest' => .ok (c, ⟨pos, pos.advance c⟩, rest', pos.advance c)

/-- `Lexer::read_char_exact`. -/
def readCharExact (expected : Char) (rest : List Char) (pos : Pos) :
    Except Error (Char × Span × List Char × Pos) :=
  match rest with
  | [] =>
    .error ⟨Span.ofPos pos, msg ("Expected ") ++ describeChar expected ++ msg (".")⟩
  | _ :: _ =>
    match readChar rest pos with
    | .error e => .error e
    | .ok (c, sp, rest', pos') =>
      if c = expected then .ok (c, sp, rest', pos')
      else
        .error ⟨sp, msg ("Expected ") ++ describeChar expected ++
          msg (", found ") ++ describeChar c ++ msg (".")⟩

/-- `Lexer::read_str_exact`. -/
def readStrExact (lit : List Char) (rest : List Char) (pos : Pos) :
    Except Error (List Char × Pos) :=
  if peekStr lit rest then .ok (rest.drop lit.length, pos.advanceList lit)
  else .error ⟨Span.ofPos pos, msg ("Expected ") ++ lit ++ msg (".")⟩

/-- The digit-consuming `while` loop of `Lexer::read_number_digits`. -/
def takeDigits : List Char → Pos → List Char × List Char × Pos
  | [], pos => ([], [], pos)
  | c :: rest, pos =>
    if c.isDigit then
      let (ds, r, p) := takeDigits rest (pos.advance c)
      (c :: ds, r, p)
    else ([], c :: rest, pos)

/-- `Lexer::read_number_digits`: one or more digits. -/
def readNumberDigits (rest : List Char) (pos : Pos) :
    Except Error (List Char × List Char × Pos) :=
  match readChar rest pos with
  | .error e => .error e
  | .ok (c, sp, rest', pos') =>
    if c.isDigit then
      let (ds, r, p) := takeDigits rest' pos'
      .ok (c :: ds, r, p)
    else .error ⟨sp, msg ("Expected digit, found ") ++ describeChar c ++ msg (".")⟩

/-- `Lexer::read_number_decimal`: a `.` and one or more digits. -/
def readNumberDecimal (rest : List Char) (pos : Pos) :
    Except Error (List Char × List Char × Pos) :=
  match readCharExact '.' rest pos with
  | .error e => .error e
  | .ok (_, _, r₁, p₁) =>
    match readNumberDigits r₁ p₁ with
    | .error e => .error e
    | .ok (ds, r₂, p₂) => .ok ('.' :: ds, r₂, p₂)

/-- The value of an all-digit numeric source fragment (`u64::from_str`). -/
def digitsToNat (ds : List Char) : Nat :=
  ds.foldl (fun acc c => acc * 10 + (c.toNat - 48)) 0

/-- `Lexer::read_number`.  Integer parsing fails exactly on `u64` overflow;
float parsing of the shapes this grammar admits never fails (see `Float'`). -/
def readNumber (rest : List Char) (pos : Pos) :
    Except Error (Token × List Char × Pos) :=
  let step1 : Except Error (List Char × List Char × Pos × Bool) :=
    if peekCharExact '.' rest then
      match readNumberDecimal rest pos with
      | .error e => .error e
      | .ok (src, r, p) => .ok (src, r, p, true)
    else
      match readNumberDigits rest pos with
      | .error e => .error e
      | .ok (src, r, p) =>
        if peekNumberDecimal r then
          match readNumberDecimal r p with
          | .error e => .error e
          | .ok (src₂, r₂, p₂) => .ok (src ++ src₂, r₂, p₂, true)
        else .ok (src, r, p, false)
  match step1 with
  | .error e => .error e
  | .ok (src, r, p, isFloat) =>
    let step2 : Except Error (List Char × List Char × Pos × Bool) :=
      if peekCharExact 'e' r ∨ peekCharExact 'E' r then
        match readChar r p with
        | .error e => .error e
        | .ok (c, _, r₁, p₁) =>
          match readNumberDigits r₁ p₁ with
          | .error e => .error e
          | .ok (ds, r₂, p₂) => .ok (src ++ c :: ds, r₂, p₂, true)
      else .ok (src, r, p, isFloat)
    match step2 with
    | .error e => .error e
    | .ok (src', r', p', isFloat') =>
      let span : Span := ⟨pos, p'⟩
      if isFloat' then .ok (.number (.float ⟨span, src'⟩), r', p')
      else if digitsToNat src' < 2 ^ 64 then
        .ok (.number (.integer ⟨span, digitsToNat src'⟩), r', p')
      else .error ⟨span, msg ("Failed to parse integer value.")⟩

/-- `Lexer::read_string_escape`: consume the character after a `\`, decode
the recognized escapes, record a non-fatal error (dropping the character) for
any other escape, and do nothing at end of input. -/
def readStringEscape (rest : List Char) (pos : Pos) (contents : List Char)
    (errors : List Error) : List Char × Pos × List Char × List Error :=
  match rest with
  | [] => ([], pos, contents, errors)
  | e :: rest' =>
    if e = 'n' then (rest', pos.advance e, contents ++ ['\n'], errors)
    else if e = 'r' then (rest', pos.advance e, contents ++ ['\r'], errors)
    else if e = '\\' ∨ e = '\'' ∨ e = '"' then
      (rest', pos.advance e, contents ++ [e], errors)
    else
      (rest', pos.advance e, contents,
        errors ++ [⟨⟨pos, pos.advance e⟩,
          msg ("Unknown string escape ") ++ describeChar e ++ msg (".")⟩])

theorem readStringEscape_len (rest : List Char) (pos : Pos) (contents : List Char)
    (errors : List Error) :
    (readStringEscape rest pos contents errors).1.length ≤ rest.length := by
  cases rest with
  | nil => simp [readStringEscape]
  | cons e rest' =>
    simp only [readStringEscape]
    split
    · simp
    · split
      · simp
      · split <;> simp

/-- The content loop of `Lexer::read_string`: consume until the closing
delimiter is the next character (or end of input), handling `\` escapes
through `readStringEscape`. -/
def readStringBody (delim : Char) (rest : List Char) (pos : Pos)
    (contents : List Char) (errors : List Error) :
    List Char × Pos × List Char × List Error :=
  match rest with
  | [] => ([], pos, contents, errors)
  | c :: rest' =>
    if c = delim then (c :: rest', pos, contents, errors)
    else if c = '\\' then
      match hesc : readStringEscape rest' (pos.advance c) contents errors with
      | (r₁, p₁, cs₁, es₁) => readStringBody delim r₁ p₁ cs₁ es₁
    else readStringBody delim rest' (pos.advance c) (contents ++ [c]) errors
termination_by rest.length
decreasing_by
  · have := readStringEscape_len rest' (pos.advance c) contents errors
    rw [hesc] at this
    simp only at this
    simp only [List.length_cons]
    omega
  · simp

/-- `Lexer::read_string`.  Returns the updated accumulated-error list in both
outcomes, since escape errors recorded before a fatal end-of-input survive in
the lexer state. -/
def readString (rest : List Char) (pos : Pos) (errors : List Error) :
    List Error × Except Error (Token × List Char × Pos) :=
  match readChar rest pos with
  | .error e => (errors, .error e)
  | .ok (delim, dsp, rest₁, pos₁) =>
    if delim = '"' ∨ delim = '\'' then
      let (rest₂, pos₂, contents, errors₂) := readStringBody delim rest₁ pos₁ [] errors
      match readCharExact delim rest₂ pos₂ with
      | .error e => (errors₂, .error e)
      | .ok (_, _, rest₃, pos₃) =>
        (errors₂, .ok (.stringLiteral ⟨⟨pos, pos₃⟩, contents⟩, rest₃, pos₃))
    else (errors, .error ⟨dsp, msg ("Unexpected ") ++ describeChar delim ++ msg (".")⟩)

/-- The continue-character loop of `Lexer::read_word_token`. -/
def takeWordContinue : List Char → Pos → List Char × List Char × Pos
  | [], pos => ([], [], pos)
  | c :: rest, pos =>
    if isWordContinue c then
      let (cs, r, p) := takeWordContinue rest (pos.advance c)
      (c :: cs, r, p)
    else ([], c :: rest, pos)

/-- `Lexer::read_word_token`. -/
def readWordToken (rest : List Char) (pos : Pos) :
    Except Error (Token × List Char × Pos) :=
  match readChar rest pos with
  | .error e => .error e
  | .ok (c, sp, rest₁, pos₁) =>
    if isWordStart c then
      let (cs, rest₂, pos₂) := takeWordContinue rest₁ pos₁
      .ok (.word ⟨⟨pos, pos₂⟩, c :: cs⟩, rest₂, pos₂)
    else .error ⟨sp, msg ("Unexpected ") ++ describeChar c ++ msg (".")⟩

/-- `Lexer::read_symbol_token`. -/
def readSymbolToken (rest : List Char) (pos : Pos) :
    Except Error (Token × List Char × Pos) :=
  match readChar rest pos with
  | .error e => .error e
  | .ok (c, sp, rest', pos') =>
    if isSymbolChar c then .ok (.symbol ⟨sp, c⟩, rest', pos')
    else .error ⟨sp, msg ("Unexpected ") ++ describeChar c ++ msg (".")⟩

/-- The line-comment loop of `Lexer::read_comment`:
`while !eof { if read_char == newline break }`. -/
def readCommentBody : List Char → Pos → List Char × Pos
  | [], pos => ([], pos)
  | c :: rest, pos =>
    if c = '\n' then (rest, pos.advance c) else readCommentBody rest (pos.advance c)

/-- `Lexer::read_comment`. -/
def readComment (rest : List Char) (pos : Pos) : Except Error (List Char × Pos) :=
  match readStrExact ['/', '/'] rest pos with
  | .error e => .error e
  | .ok (r, p) => .ok (readCommentBody r p)

/-- The scan loop of `Lexer::read_comment_multiline`:
consume until end of input or a closing marker is next. -/
def readCommentMultilineBody : List Char → Pos → List Char × Pos
  | [], pos => ([], pos)
  | c :: rest, pos =>
    if peekStr ['*', '/'] (c :: rest) then (c :: rest, pos)
    else readCommentMultilineBody rest (pos.advance c)

/-- `Lexer::read_comment_multiline`; an unterminated block comment is fatal. -/
def readCommentMultiline (rest : List Char) (pos : Pos) :
    Except Error (List Char × Pos) :=
  match readStrExact ['/', '*'] rest pos with
  | .error e => .error e
  | .ok (r, p) =>
    let (r₁, p₁) := readCommentMultilineBody r p
    readStrExact ['*', '/'] r₁ p₁

/-- `Lexer::read_delimiter`.  The open-delimiter stack is a `Vec` pushed and
popped at the end; `drain(..)` later yields it front-to-back. -/
def readDelimiter (rest : List Char) (pos : Pos) (tokens : List Token)
    (openDelims : List Delimiter) :
    Except Error (List Char × Pos × List Token × List Delimiter) :=
  match readChar rest pos with
  | .error e => .error e
  | .ok (c, sp, rest', pos') =>
    if c = '(' ∨ c = '[' ∨ c = '{' then
      let d : Delimiter := ⟨sp, c⟩
      .ok (rest', pos', tokens ++ [.delimiter d], openDelims ++ [d])
    else if c = ')' ∨ c = ']' ∨ c = '}' then
      match openDelims.getLast? with
      | some d =>
        if d.asRevChar = c then
          .ok (rest', pos', tokens ++ [.delimiter ⟨sp, c⟩], openDelims.dropLast)
        else
          .error ⟨sp, msg ("Expected ") ++ describeChar d.asRevChar ++
            msg (", found ") ++ describeChar c ++ msg (".")⟩
      | none => .error ⟨sp, msg ("Unexpected ") ++ describeChar c ++ msg (".")⟩
    else .error ⟨sp, msg ("Unexpected ") ++ describeChar c ++ msg (".")⟩

/-! ### Consumption lemmas

Every lexer helper consumes input; these lemmas bound the remaining input and
justify termination of the scan loop. -/

theorem readChar_len {rest : List Char} {pos : Pos} {c sp r p}
    (h : readChar rest pos = .ok (c, sp, r, p)) : r.length < rest.length := by
  cases rest with
  | nil => simp [readChar] at h
  | cons x xs =>
    simp only [readChar, Except.ok.injEq, Prod.mk.injEq] at h
    obtain ⟨-, -, h, -⟩ := h
    subst h
    simp

theorem readCharExact_len {e : Char} {rest : List Char} {pos : Pos} {c sp r p}
    (h : readCharExact e rest pos = .ok (c, sp, r, p)) : r.length < rest.length := by
  cases rest with
  | nil => simp [readCharExact] at h
  | cons x xs =>
    simp only [readCharExact, readChar] at h
    split at h
    · simp only [Except.ok.injEq, Prod.mk.injEq] at h
      obtain ⟨-, -, h, -⟩ := h
      subst h
      simp
    · simp at h

theorem peekStr_len {lit rest : List Char} (h : peekStr lit rest = true) :
    lit.length ≤ rest.length := by
  induction lit generalizing rest with
  | nil => simp
  | cons a as ih =>
    cases rest with
    | nil => simp [peekStr] at h
    | cons b bs =>
      simp only [peekStr, Bool.and_eq_true] at h
      simpa using Nat.succ_le_succ (ih h.2)

theorem readStrExact_len {lit rest : List Char} {pos : Pos} {r p}
    (h : readStrExact lit rest pos = .ok (r, p)) :
    r.length + lit.length = rest.length := by
  simp only [readStrExact] at h
  split at h
  · simp only [Except.ok.injEq, Prod.mk.injEq] at h
    obtain ⟨h, -⟩ := h
    subst h
    have := peekStr_len (by assumption)
    simp [Nat.sub_add_cancel this]
  · simp at h

theorem takeDigits_len (rest : List Char) (pos : Pos) :
    (takeDigits rest pos).2.1.length ≤ rest.length := by
  induction rest generalizing pos with
  | nil => simp [takeDigits]
  | cons c xs ih =>
    simp only [takeDigits]
    split
    · simpa using Nat.le_succ_of_le (ih (pos.advance c))
    · simp

theorem takeWordContinue_len (rest : List Char) (pos : Pos) :
    (takeWordContinue rest pos).2.1.length ≤ rest.length := by
  induction rest generalizing pos with
  | nil => simp [takeWordContinue]
  | cons c xs ih =>
    simp only [takeWordContinue]
    split
    · simpa using Nat.le_succ_of_le (ih (pos.advance c))
    · simp

theorem readNumberDigits_len {rest : List Char} {pos : Pos} {ds r p}
    (h : readNumberDigits rest pos = .ok (ds, r, p)) : r.length < rest.length := by
  cases rest with
  | nil => simp [readNumberDigits, readChar] at h
  | cons x xs =>
    simp only [readNumberDigits, readChar] at h
    split at h
    · simp only [Except.ok.injEq, Prod.mk.injEq] at h
      obtain ⟨-, h, -⟩ := h
      subst h
      have := takeDigits_len xs (pos.advance x)
      simpa using Nat.lt_succ_of_le this
    · simp at h

theorem readNumberDecimal_len {rest : List Char} {pos : Pos} {ds r p}
    (h : readNumberDecimal rest pos = .ok (ds, r, p)) : r.length < rest.length := by
  simp only [readNumberDecimal] at h
  split at h
  · simp at h
  · rename_i heq
    split at h
    · simp at h
    · rename_i heq₂
      simp only [Except.ok.injEq, Prod.mk.injEq] at h
      obtain ⟨-, h, -⟩ := h
      subst h
      exact Nat.lt_trans (readNumberDigits_len heq₂) (readCharExact_len heq)

theorem readNumber_len {rest : List Char} {pos : Pos} {tk r p}
    (h : readNumber rest pos = .ok (tk, r, p)) : r.length < rest.length := by
  simp only [readNumber] at h
  split at h
  · simp at h
  · rename_i src r₁ p₁ isF heq₁
    have h₁ : r₁.length < rest.length := by
      split at heq₁
      · split at heq₁
        · simp at heq₁
        · rename_i hd
          simp only [Except.ok.injEq, Prod.mk.injEq] at heq₁
          obtain ⟨-, h', -⟩ := heq₁
          subst h'
          exact readNumberDecimal_len hd
      · split at heq₁
        · simp at heq₁
        · rename_i hd
          split at heq₁
          · split at heq₁
            · simp at heq₁
            · rename_i hd₂
              simp only [Except.ok.injEq, Prod.mk.injEq] at heq₁
              obtain ⟨-, h', -⟩ := heq₁
              subst h'
              exact Nat.lt_trans (readNumberDecimal_len hd₂) (readNumberDigits_len hd)
          · simp only [Except.ok.injEq, Prod.mk.injEq] at heq₁
            obtain ⟨-, h', -⟩ := heq₁
            subst h'
            exact readNumberDigits_len hd
    split at h
    · simp at h
    · rename_i src' r' p' isF' heq₂
      have h₂ : r'.length ≤ r₁.length := by
        split at heq₂
        · split at heq₂
          · simp at heq₂
          · rename_i hc
            split at heq₂
            · simp at heq₂
            · rename_i hd
              simp only [Except.ok.injEq, Prod.mk.injEq] at heq₂
              obtain ⟨-, h', -⟩ := heq₂
              subst h'
              exact Nat.le_of_lt (Nat.lt_trans (readNumberDigits_len hd) (readChar_len hc))
        · simp only [Except.ok.injEq, Prod.mk.injEq] at heq₂
          obtain ⟨-, h', -⟩ := heq₂
          subst h'
          exact Nat.le_refl _
      split at h
      · simp only [Except.ok.injEq, Prod.mk.injEq] at h
        obtain ⟨-, h', -⟩ := h
        subst h'
        omega
      · split at h
        · simp only [Except.ok.injEq, Prod.mk.injEq] at h
          obtain ⟨-, h', -⟩ := h
          subst h'
          omega
        · simp at h

theorem readStringBody_len_aux (delim : Char) :
    ∀ (n : Nat) (rest : List Char), rest.length ≤ n →
    ∀ (pos : Pos) (contents : List Char) (errors : List Error),
    (readStringBody delim rest pos contents errors).1.length ≤ rest.length := by
  intro n
  induction n with
  | zero =>
    intro rest h pos contents errors
    cases rest with
    | nil => simp [readStringBody]
    | cons c rest' => simp at h
  | succ n ih =>
    intro rest h pos contents errors
    cases rest with
    | nil => simp [readStringBody]
    | cons c rest' =>
      simp only [List.length_cons] at h
      simp only [readStringBody]
      split
      · simp
      · split
        · rcases hesc : readStringEscape rest' (pos.advance c) contents errors with
            ⟨r₁, p₁, cs₁, es₁⟩
          have hl := readStringEscape_len rest' (pos.advance c) contents errors
          rw [hesc] at hl
          simp only at hl
          simp only
          refine le_trans (ih r₁ (by omega) _ _ _) ?_
          simp only [List.length_cons]
          omega
        · refine le_trans (ih rest' (by omega) _ _ _) ?_
          simp only [List.length_cons]
          omega

theorem readStringBody_len (delim : Char) (rest : List Char) (pos : Pos)
    (contents : List Char) (errors : List Error) :
    (readStringBody delim rest pos contents errors).1.length ≤ rest.length :=
  readStringBody_len_aux delim rest.length rest (Nat.le_refl _) pos contents errors

theorem readString_len {rest : List Char} {pos : Pos} {errors errs tk r p}
    (h : (readString rest pos errors) = (errs, .ok (tk, r, p))) :
    r.length < rest.length := by
  cases rest with
  | nil => simp [readString, readChar] at h
  | cons x xs =>
    simp only [readString, readChar] at h
    split at h
    · have hb := readStringBody_len x xs (pos.advance x) [] errors
      rcases hbody : readStringBody x xs (pos.advance x) [] errors with ⟨r₂, p₂, cs, errs₂⟩
      rw [hbody] at h hb
      simp only at h hb
      split at h
      · simp at h
      · rename_i hce
        simp only [Prod.mk.injEq, Except.ok.injEq] at h
        obtain ⟨-, -, h', -⟩ := h
        subst h'
        have hc := readCharExact_len hce
        simp only [List.length_cons]
        omega
    · simp at h

theorem readWordToken_len {rest : List Char} {pos : Pos} {tk r p}
    (h : readWordToken rest pos = .ok (tk, r, p)) : r.length < rest.length := by
  cases rest with
  | nil => simp [readWordToken, readChar] at h
  | cons x xs =>
    simp only [readWordToken, readChar] at h
    split at h
    · simp only [Except.ok.injEq, Prod.mk.injEq] at h
      obtain ⟨-, h', -⟩ := h
      subst h'
      have := takeWordContinue_len xs (pos.advance x)
      simpa using Nat.lt_succ_of_le this
    · simp at h

theorem readSymbolToken_len {rest : List Char} {pos : Pos} {tk r p}
    (h : readSymbolToken rest pos = .ok (tk, r, p)) : r.length < rest.length := by
  cases rest with
  | nil => simp [readSymbolToken, readChar] at h
  | cons x xs =>
    simp only [readSymbolToken, readChar] at h
    split at h
    · simp only [Except.ok.injEq, Prod.mk.injEq] at h
      obtain ⟨-, h', -⟩ := h
      subst h'
      simp
    · simp at h

theorem readCommentBody_len (rest : List Char) (pos : Pos) :
    (readCommentBody rest pos).1.length ≤ rest.length := by
  induction rest generalizing pos with
  | nil => simp [readCommentBody]
  | cons c xs ih =>
    simp only [readCommentBody]
    split
    · simp
    · exact Nat.le_succ_of_le (ih (pos.advance c))

theorem readComment_len {rest : List Char} {pos : Pos} {r p}
    (h : readComment rest pos = .ok (r, p)) : r.length < rest.length := by
  simp only [readComment] at h
  split at h
  · simp at h
  · rename_i r₁ p₁ heq
    have h₁ := readStrExact_len heq
    simp only [Except.ok.injEq] at h
    have h₂ := readCommentBody_len r₁ p₁
    rw [h] at h₂
    simp only [List.length_cons, List.length_nil] at h₁ h₂ ⊢
    omega

theorem readCommentMultilineBody_len (rest : List Char) (pos : Pos) :
    (readCommentMultilineBody rest pos).1.length ≤ rest.length := by
  induction rest generalizing pos with
  | nil => simp [readCommentMultilineBody]
  | cons c xs ih =>
    simp only [readCommentMultilineBody]
    split
    · simp
    · exact Nat.le_succ_of_le (ih (pos.advance c))

theorem readCommentMultiline_len {rest : List Char} {pos : Pos} {r p}
    (h : readCommentMultiline rest pos = .ok (r, p)) : r.length < rest.length := by
  simp only [readCommentMultiline] at h
  split at h
  · simp at h
  · rename_i r₁ p₁ heq
    have h₁ := readStrExact_len heq
    rcases hbody : readCommentMultilineBody r₁ p₁ with ⟨r₂, p₂⟩
    rw [hbody] at h
    simp only at h
    have h₂ := readCommentMultilineBody_len r₁ p₁
    rw [hbody] at h₂
    simp only at h₂
    have h₃ := readStrExact_len h
    simp only [List.length_cons, List.length_nil] at h₁ h₃ ⊢
    omega

theorem readDelimiter_len {rest : List Char} {pos : Pos} {tokens openDelims r p tks ods}
    (h : readDelimiter rest pos tokens openDelims = .ok (r, p, tks, ods)) :
    r.length < rest.length := by
  cases rest with
  | nil => simp [readDelimiter, readChar] at h
  | cons x xs =>
    simp only [readDelimiter, readChar] at h
    split at h
    · simp only [Except.ok.injEq, Prod.mk.injEq] at h
      obtain ⟨h', -⟩ := h
      subst h'
      simp
    · split at h
      · split at h
        · split at h
          · simp only [Except.ok.injEq, Prod.mk.injEq] at h
            obtain ⟨h', -⟩ := h
            subst h'
            simp
          · simp at h
        · simp at h
      · simp at h

/-! ### The scan loop (`Lexer::run`) and `lex` -/

/-- The mutable fields of `struct Lexer` (the input is passed separately). -/
structure LexState where
  tokens : List Token
  openDelims : List Delimiter
  errors : List Error
  pos : Pos
deriving Repr

/-- The `while let Some(c) = self.peek_char()` loop of `Lexer::run`.  Returns
the state at loop exit and the fatal error, if one aborted the scan.
`char::is_whitespace` is Unicode in the source; its ASCII fragment
(`Char.isWhitespace`) is faithful for every input considered below. -/
def lexLoop (rest : List Char) (st : LexState) : LexState × Option Error :=
  match rest with
  | [] => (st, none)
  | c :: rest' =>
    if c = '(' ∨ c = '[' ∨ c = '{' ∨ c = ')' ∨ c = ']' ∨ c = '}' then
      match hh : readDelimiter (c :: rest') st.pos st.tokens st.openDelims with
      | .error e => (st, some e)
      | .ok (r, p, tks, ods) =>
        lexLoop r { st with pos := p, tokens := tks, openDelims := ods }
    else if c = '"' ∨ c = '\'' then
      match hh : readString (c :: rest') st.pos st.errors with
      | (errs, .error e) => ({ st with errors := errs }, some e)
      | (errs, .ok (tk, r, p)) =>
        lexLoop r { st with pos := p, tokens := st.tokens ++ [tk], errors := errs }
    else if c = '/' ∧ peekStr ['/', '/'] (c :: rest') then
      match hh : readComment (c :: rest') st.pos with
      | .error e => (st, some e)
      | .ok (r, p) => lexLoop r { st with pos := p }
    else if c = '/' ∧ peekStr ['/', '*'] (c :: rest') then
      match hh : readCommentMultiline (c :: rest') st.pos with
      | .error e => (st, some e)
      | .ok (r, p) => lexLoop r { st with pos := p }
    else if (c = '.' ∧ peekNumberDecimal (c :: rest')) ∨ c.isDigit then
      match hh : readNumber (c :: rest') st.pos with
      | .error e => (st, some e)
      | .ok (tk, r, p) => lexLoop r { st with pos := p, tokens := st.tokens ++ [tk] }
    else if isWordStart c then
      match hh : readWordToken (c :: rest') st.pos with
      | .error e => (st, some e)
      | .ok (tk, r, p) => lexLoop r { st with pos := p, tokens := st.tokens ++ [tk] }
    else if c.isWhitespace then
      match hh : readChar (c :: rest') st.pos with
      | .error e => (st, some e)
      | .ok (_, _, r, p) => lexLoop r { st with pos := p }
    else
      match hh : readSymbolToken (c :: rest') st.pos with
      | .error e => (st, some e)
      | .ok (tk, r, p) => lexLoop r { st with pos := p, tokens := st.tokens ++ [tk] }
termination_by rest.length
decreasing_by
  · exact readDelimiter_len hh
  · exact readString_len hh
  · exact readComment_len hh
  · exact readCommentMultiline_len hh
  · exact readNumber_len hh
  · exact readWordToken_len hh
  · exact readChar_len hh
  · exact readSymbolToken_len hh

/-- The non-fatal error `Lexer::run` adds for each delimiter still open after
the scan (`"Unmatched ..."`, at the opening delimiter's span). -/
def unmatchedError (d : Delimiter) : Error :=
  ⟨d.span, msg ("Unmatched ") ++ describeChar d.value ++ msg (".")⟩

/-- `Lexer::run` on a whole input from the default state: the scan loop,
followed (only when no fatal error aborted it) by one unmatched-delimiter
error per entry still on the open-delimiter stack, drained front-to-back. -/
def lexRun (input : List Char) : LexState × Option Error :=
  match lexLoop input ⟨[], [], [], Pos.zero⟩ with
  | (st, none) =>
    (⟨st.tokens, [], st.errors ++ st.openDelims.map unmatchedError, st.pos⟩, none)
  | (st, some e) => (st, some e)

/-! ## Token-buffer windows (`src/encoding/idn/syn/tokens.rs`)

`Tokens` pairs a shared immutable backing array with a movable index range
and a cached span.  The backing array is modelled by its list of tokens plus
a backing identity `bid`; `truncate_before` compares backing identity where
the source compares pointers (`ptr::eq`), which is faithful because every
window cloned from one lexer run carries the same identity and windows of
distinct runs carry distinct identities. -/

structure Toks where
  span : Span
  list : List Token
  bid : Nat
  start : Nat
  stop : Nat
deriving Repr, DecidableEq

/-- `Tokens::list`: the active sub-slice of the backing array.  Rust's
`&list[range]` panics unless `start ≤ stop ≤ len`; this total model clamps,
and the well-formedness invariant below shows the panic precondition never
arises. -/
def Toks.view (t : Toks) : List Token :=
  (t.list.drop t.start).take (t.stop - t.start)

/-- `Tokens::update_span`: recompute the cached span from the remaining
tokens; an empty window degenerates to a zero-length span at the previous
span's start. -/
def Toks.updateSpan (t : Toks) : Toks :=
  match t.view with
  | [] => { t with span := Span.ofPos t.span.start }
  | [tok] => { t with span := tok.span }
  | tok :: tok₂ :: rest =>
    { t with span := Span.union tok.span ((tok₂ :: rest).getLast (by simp)).span }

/-- `Tokens::new`: a window over the whole list. -/
def Toks.new (span : Span) (list : List Token) (bid : Nat) : Toks :=
  Toks.updateSpan ⟨span, list, bid, 0, list.length⟩

/-- `Tokens::peek`. -/
def Toks.peek (t : Toks) : Option Token :=
  t.view.head?

/-- `Tokens::is_empty`. -/
def Toks.isEmpty (t : Toks) : Bool :=
  t.view.isEmpty

/-- `Tokens::next`: remove and return the first token of the window (a no-op
returning `none` on an empty window). -/
def Toks.next (t : Toks) : Option Token × Toks :=
  match t.peek with
  | none => (none, t)
  | some tok => (some tok, Toks.updateSpan { t with start := t.start + 1 })

/-- `Tokens::pop`: remove the last token of the window, clamping as the
source does (`range.end = min(end, max(start, end.saturating_sub(1)))`). -/
def Toks.pop (t : Toks) : Toks :=
  Toks.updateSpan { t with stop := min t.stop (max t.start (t.stop - 1)) }

/-- `Tokens::truncate_before`: shrink this window to end where `seq` begins;
a no-op when the two windows have different backing arrays. -/
def Toks.truncateBefore (t seq : Toks) : Toks :=
  if t.bid ≠ seq.bid then t
  else Toks.updateSpan { t with stop := min t.stop (max t.start seq.start) }

/-- The number of tokens remaining in the window. -/
def Toks.size (t : Toks) : Nat := t.stop - t.start

/-- Well-formedness of a window: the index range lies inside the backing
array, which is exactly the precondition of Rust's `&list[range]`. -/
def Toks.WF (t : Toks) : Prop :=
  t.start ≤ t.stop ∧ t.stop ≤ t.list.length

/-! ## `lex` (`src/encoding/idn.rs` / `lex.rs`)

`lex` runs the scan and returns `Ok(Tokens::new(default()..pos, tokens))`
exactly when the error list is empty; otherwise the accumulated list, with a
fatal error appended last when one aborted the scan. -/

/-- `idn::lex`.  The constructed window carries backing identity 0 (each
top-level run builds a fresh backing array). -/
def lex (input : List Char) : Except ErrorList Toks :=
  match lexRun input with
  | (st, none) =>
    match st.errors.length with
    | 0 => .ok (Toks.new ⟨Pos.zero, st.pos⟩ st.tokens 0)
    | _ => .error st.errors
  | (st, some e) => .error (st.errors ++ [e])

/-! ### Window facts -/

@[simp] theorem Toks.updateSpan_start (t : Toks) : (Toks.updateSpan t).start = t.start := by
  unfold Toks.updateSpan
  split <;> rfl

@[simp] theorem Toks.updateSpan_stop (t : Toks) : (Toks.updateSpan t).stop = t.stop := by
  unfold Toks.updateSpan
  split <;> rfl

@[simp] theorem Toks.updateSpan_list (t : Toks) : (Toks.updateSpan t).list = t.list := by
  unfold Toks.updateSpan
  split <;> rfl

@[simp] theorem Toks.updateSpan_bid (t : Toks) : (Toks.updateSpan t).bid = t.bid := by
  unfold Toks.updateSpan
  split <;> rfl

@[simp] theorem Toks.updateSpan_view (t : Toks) : (Toks.updateSpan t).view = t.view := by
  unfold Toks.view
  rw [Toks.updateSpan_start, Toks.updateSpan_stop, Toks.updateSpan_list]

@[simp] theorem Toks.updateSpan_size (t : Toks) : (Toks.updateSpan t).size = t.size := by
  unfold Toks.size
  rw [Toks.updateSpan_start, Toks.updateSpan_stop]

theorem Toks.next_none {t : Toks} (hp : t.peek = none) : t.next = (none, t) := by
  unfold Toks.next
  rw [hp]

theorem Toks.next_some {t : Toks} {tok : Token} (hp : t.peek = some tok) :
    t.next = (some tok, Toks.updateSpan { t with start := t.start + 1 }) := by
  unfold Toks.next
  rw [hp]

theorem Toks.peek_some_size {t : Toks} {tok : Token} (h : t.peek = some tok) :
    0 < t.size := by
  by_contra hn
  have hz : t.size = 0 := by omega
  unfold Toks.peek Toks.view at h
  unfold Toks.size at hz
  rw [hz] at h
  simp at h

theorem Toks.next_snd_size {t : Toks} {tok : Token} (hp : t.peek = some tok) :
    (t.next).2.size < t.size := by
  rw [Toks.next_some hp]
  have := Toks.peek_some_size hp
  show (Toks.updateSpan { t with start := t.start + 1 }).size < t.size
  rw [Toks.updateSpan_size]
  show t.stop - (t.start + 1) < t.size
  simp only [Toks.size] at *
  omega

theorem Toks.next_some_size {t t' : Toks} {tok : Token} (h : t.next = (some tok, t')) :
    t'.size < t.size := by
  unfold Toks.next at h
  cases hp : t.peek with
  | none => rw [hp] at h; simp at h
  | some tok₀ =>
    rw [hp] at h
    simp only [Prod.mk.injEq, Option.some.injEq] at h
    obtain ⟨-, h⟩ := h
    subst h
    have := Toks.peek_some_size hp
    simp only [Toks.updateSpan_size, Toks.size] at *
    simp only [Toks.updateSpan_stop, Toks.updateSpan_start]
    omega

/-! ## Syntax elements (`src/encoding/idn/syn/group.rs`, `element.rs`) -/

/-- `syn::Group`: a delimiter-balanced group; `contents` is the token
sub-window strictly between the delimiters. -/
structure Group where
  openDelim : Delimiter
  contents : Toks
  closeDelim : Delimiter

/-- `Group::span`: spans of both delimiters, united. -/
def Group.span (g : Group) : Span := Span.union g.openDelim.span g.closeDelim.span

/-- `syn::Element`. -/
inductive Element where
  | group (g : Group)
  | number (n : Number)
  | symbol (s : Symbol)
  | stringLiteral (s : StringLiteral)
  | word (w : Word)

/-- `Element::span`. -/
def Element.span : Element → Span
  | .group g => g.span
  | .number n => n.span
  | .symbol s => s.span
  | .stringLiteral s => s.span
  | .word w => w.span

/-- Rendering of `syn::DescribeElement` (messages never decide a property;
see `describeChar`). -/
def describeElement : Element → List Char
  | .group g => describeChar g.openDelim.value ++ describeChar g.closeDelim.value
  | .number (.float _) => msg ("floating-point number")
  | .number (.integer _) => msg ("integer")
  | .stringLiteral _ => msg ("string")
  | .symbol s => describeChar s.value
  | .word w => w.value

/-! ## Reader state and result types (`src/encoding/idn/reader.rs`)

A `Reader` owns a token window and shares one `Context` (hence one error
list) with every sub-reader of the same parse; the shared list is threaded
explicitly.  `RRes` is the result of a fallible reader operation (`Result` in
the source, with the post-call reader state made explicit); `panic` models
`unwrap`/`expect`/`unreachable!`. -/

structure RState where
  toks : Toks
  errors : List Error

/-- Result of an infallible-but-possibly-panicking operation. -/
inductive PRes (α : Type u) : Type u where
  | ok (a : α)
  | panic

/-- Result of a reader operation: `Ok` with the updated state, a fatal
`Err` (the state still carries window position and accumulated errors), or a
panic. -/
inductive RRes (α : Type u) : Type (max u 1) where
  | ok (a : α) (s : RState)
  | fatal (e : Error) (s : RState)
  | panic

/-- The scan loop of `Group::try_from_tokens`: count nested opens until the
matching close; `tokens.next().unwrap()` panics if the window is exhausted
first.  (`next()` peeks and then advances, so the consumed token is the
peeked one and the advanced window is `(tokens.next).2`.) -/
def groupScan (opened : Nat) (tokens contents : Toks) (openD : Delimiter) :
    PRes (Group × Toks) :=
  match h : tokens.peek with
  | none => .panic
  | some (.delimiter d) =>
    if d.isOpen then groupScan (opened + 1) (tokens.next).2 contents openD
    else if opened = 1 then
      .ok (⟨openD, ((contents.truncateBefore (tokens.next).2).pop), d⟩, (tokens.next).2)
    else groupScan (opened - 1) (tokens.next).2 contents openD
  | some _ => groupScan opened (tokens.next).2 contents openD
termination_by tokens.size
decreasing_by
  · exact Toks.next_snd_size h
  · exact Toks.next_snd_size h
  · exact Toks.next_snd_size h

/-- `Group::try_from_tokens`: `none` when the window does not start with a
delimiter (no input consumed). -/
def Group.tryFromTokens (t : Toks) : PRes (Option (Group × Toks)) :=
  match t.peek with
  | some (.delimiter d) =>
    match groupScan 1 (t.next).2 (t.next).2 d with
    | .panic => .panic
    | .ok (g, t') => .ok (some (g, t'))
  | _ => .ok none

/-- `Element::from_idn`: first a delimited group, else one non-delimiter
token; the `Delimiter` arm is `unreachable!` in the source. -/
def Element.fromIdn (s : RState) : RRes Element :=
  match Group.tryFromTokens s.toks with
  | .panic => .panic
  | .ok (some (g, t')) => .ok (.group g) { s with toks := t' }
  | .ok none =>
    match s.toks.next with
    | (none, _) => .fatal ⟨s.toks.span, msg ("Expected element.")⟩ s
    | (some tok, t') =>
      match tok with
      | .delimiter _ => .panic
      | .number n => .ok (.number n) { s with toks := t' }
      | .stringLiteral sl => .ok (.stringLiteral sl) { s with toks := t' }
      | .symbol sym => .ok (.symbol sym) { s with toks := t' }
      | .word w => .ok (.word w) { s with toks := t' }

/-- `Element::try_from_idn`: `none` on an empty window without consuming
input; otherwise `read().expect(..)` (a read error is a panic). -/
def Element.tryFromIdn (s : RState) : PRes (Option (Element × RState)) :=
  if s.toks.isEmpty then .ok none
  else
    match Element.fromIdn s with
    | .ok el s' => .ok (some (el, s'))
    | .fatal _ _ => .panic
    | .panic => .panic

theorem groupScan_size_aux :
    ∀ (n : Nat) (opened : Nat) (tokens contents : Toks) (openD : Delimiter)
      (g : Group) (t' : Toks), tokens.size ≤ n →
      groupScan opened tokens contents openD = .ok (g, t') →
      t'.size < tokens.size := by
  intro n
  induction n with
  | zero =>
    intro opened tokens contents openD g t' hn h
    rw [groupScan] at h
    split at h
    · simp at h
    · rename_i d heq
      have := Toks.next_snd_size heq
      omega
    · rename_i tok hne heq
      have := Toks.next_snd_size heq
      omega
  | succ n ih =>
    intro opened tokens contents openD g t' hn h
    rw [groupScan] at h
    split at h
    · simp at h
    · rename_i d heq
      have hsz := Toks.next_snd_size heq
      split at h
      · have := ih (opened + 1) (tokens.next).2 contents openD g t' (by omega) h
        omega
      · split at h
        · simp only [PRes.ok.injEq, Prod.mk.injEq] at h
          obtain ⟨-, h⟩ := h
          subst h
          omega
        · have := ih (opened - 1) (tokens.next).2 contents openD g t' (by omega) h
          omega
    · rename_i tok hne heq
      have hsz := Toks.next_snd_size heq
      have := ih opened (tokens.next).2 contents openD g t' (by omega) h
      omega

theorem groupScan_size {opened : Nat} {tokens contents : Toks} {openD : Delimiter}
    {g : Group} {t' : Toks} (h : groupScan opened tokens contents openD = .ok (g, t')) :
    t'.size < tokens.size :=
  groupScan_size_aux tokens.size opened tokens contents openD g t' (Nat.le_refl _) h

theorem Element.fromIdn_size {s : RState} {el : Element} {s' : RState}
    (h : Element.fromIdn s = .ok el s') : s'.toks.size < s.toks.size := by
  unfold Element.fromIdn at h
  cases hg : Group.tryFromTokens s.toks with
  | panic => rw [hg] at h; simp at h
  | ok og =>
    rw [hg] at h
    cases og with
    | some p =>
      obtain ⟨g, t'⟩ := p
      simp only [RRes.ok.injEq] at h
      obtain ⟨-, h⟩ := h
      subst h
      unfold Group.tryFromTokens at hg
      cases hp : s.toks.peek with
      | none => rw [hp] at hg; simp at hg
      | some tok =>
        rw [hp] at hg
        cases tok with
        | delimiter d =>
          simp only at hg
          cases hgs : groupScan 1 (s.toks.next).2 (s.toks.next).2 d with
          | panic => rw [hgs] at hg; simp at hg
          | ok p' =>
            obtain ⟨g', t''⟩ := p'
            rw [hgs] at hg
            simp only [PRes.ok.injEq, Option.some.injEq, Prod.mk.injEq] at hg
            obtain ⟨-, hg⟩ := hg
            subst hg
            have h₁ := groupScan_size hgs
            have h₂ : (s.toks.next).2.size < s.toks.size := by
              have hns := Toks.next_some hp
              rw [hns]
              have := Toks.peek_some_size hp
              simp only [Toks.updateSpan_size, Toks.size] at *
              simp only [Toks.updateSpan_stop, Toks.updateSpan_start]
              omega
            show t''.size < s.toks.size
            omega
        | number x => simp at hg
        | stringLiteral x => simp at hg
        | symbol x => simp at hg
        | word x => simp at hg
    | none =>
      simp only at h
      cases hnext : s.toks.next with
      | mk tok? t' =>
        cases tok? with
        | none => rw [hnext] at h; simp at h
        | some tok =>
          rw [hnext] at h
          have hsz := Toks.next_some_size hnext
          cases tok with
          | delimiter d => simp at h
          | number x =>
            simp only [RRes.ok.injEq] at h
            obtain ⟨-, h⟩ := h
            subst h
            exact hsz
          | stringLiteral x =>
            simp only [RRes.ok.injEq] at h
            obtain ⟨-, h⟩ := h
            subst h
            exact hsz
          | symbol x =>
            simp only [RRes.ok.injEq] at h
            obtain ⟨-, h⟩ := h
            subst h
            exact hsz
          | word x =>
            simp only [RRes.ok.injEq] at h
            obtain ⟨-, h⟩ := h
            subst h
            exact hsz

theorem Element.tryFromIdn_size {s : RState} {el : Element} {s' : RState}
    (h : Element.tryFromIdn s = .ok (some (el, s'))) : s'.toks.size < s.toks.size := by
  unfold Element.tryFromIdn at h
  split at h
  · simp at h
  · cases hf : Element.fromIdn s with
    | ok el₀ s₀ =>
      rw [hf] at h
      simp only [PRes.ok.injEq, Option.some.injEq, Prod.mk.injEq] at h
      obtain ⟨-, h⟩ := h
      subst h
      exact Element.fromIdn_size hf
    | fatal e s₀ => rw [hf] at h; simp at h
    | panic => rw [hf] at h; simp at h

/-! ## Reader operations (`reader.rs`, `symbol.rs`, `word.rs`, `group.rs`) -/

/-- The drain loop at the end of `Reader::finish`
(`while self.tokens.next().is_some() {}`). -/
def Toks.drain (t : Toks) : Toks :=
  match h : t.peek with
  | none => t
  | some _ => ((t.next).2).drain
termination_by t.size
decreasing_by
  · exact Toks.next_snd_size h

/-- `Reader::finish`: try to read one more element; if one is there, record a
non-fatal `Unexpected ...` error; then discard all remaining tokens. -/
def finish (s : RState) : PRes RState :=
  match Element.tryFromIdn s with
  | .panic => .panic
  | .ok none => .ok { s with toks := s.toks.drain }
  | .ok (some (el, s')) =>
    .ok { toks := s'.toks.drain,
          errors := s'.errors ++
            [⟨el.span, msg ("Unexpected ") ++ describeElement el ++ msg (".")⟩] }

/-- `Reader::skip`: discard one element if present. -/
def skip (s : RState) : PRes (Bool × RState) :=
  match Element.tryFromIdn s with
  | .panic => .panic
  | .ok none => .ok (false, s)
  | .ok (some (_, s')) => .ok (true, s')

/-- The `while reader.skip() {}` loop of `Tokens::from_idn`. -/
def skipAll (s : RState) : PRes RState :=
  match h : Element.tryFromIdn s with
  | .panic => .panic
  | .ok none => .ok s
  | .ok (some (_, s')) => skipAll s'
termination_by s.toks.size
decreasing_by
  · exact Element.tryFromIdn_size h

/-- `Tokens::from_idn`: return the whole remaining window as the value and
consume the reader to its end. -/
def toksFromIdn (s : RState) : RRes Toks :=
  match skipAll s with
  | .panic => .panic
  | .ok s' => .ok s.toks s'

/-- `Reader::read_to_end`, parameterised by the decode procedure of the
target type: decode, then call `finish()` exactly when the shared error
list's length is unchanged by the decode, and return the decode's result. -/
def readToEnd (d : RState → RRes α) (s : RState) : RRes α :=
  match d s with
  | .panic => .panic
  | .ok a s' =>
    if s'.errors.length = s.errors.length then
      match finish s' with
      | .panic => .panic
      | .ok s'' => .ok a s''
    else .ok a s'
  | .fatal e s' =>
    if s'.errors.length = s.errors.length then
      match finish s' with
      | .panic => .panic
      | .ok s'' => .fatal e s''
    else .fatal e s'

/-- `Reader::from_idn`: take the rest of the window (via `read_to_end`) as a
new sub-reader sharing the parent's context. -/
def readerFromIdn (s : RState) : RRes Toks :=
  readToEnd toksFromIdn s

/-- The common shape of the `impl_for_element!` macro's generated
implementations: try to read an element and require one particular variant,
with `Expected {desc}.` / `Expected {desc}, found {other}.` fatal errors. -/
def readElementAs (desc : List Char) (f : Element → Option α) (s : RState) : RRes α :=
  match Element.tryFromIdn s with
  | .panic => .panic
  | .ok none => .fatal ⟨s.toks.span, msg ("Expected ") ++ desc ++ msg (".")⟩ s
  | .ok (some (el, s')) =>
    match f el with
    | some a => .ok a s'
    | none =>
      .fatal ⟨el.span, msg ("Expected ") ++ desc ++ msg (", found ") ++
        describeElement el ++ msg (".")⟩ s'

/-- `impl_for_element!(Number, "number")`. -/
def numberFromIdn : RState → RRes Number :=
  readElementAs (msg ("number"))
    (fun el => match el with | .number n => some n | _ => none)

/-- `impl_for_element!(Symbol, "symbol")`. -/
def symbolFromIdn : RState → RRes Symbol :=
  readElementAs (msg ("symbol"))
    (fun el => match el with | .symbol sym => some sym | _ => none)

/-- `impl_for_element!(Word, "word")`. -/
def wordFromIdn : RState → RRes Word :=
  readElementAs (msg ("word"))
    (fun el => match el with | .word w => some w | _ => none)

/-- `Integer::from_idn`: read a `Number`, then `try_into` (a float is the
fatal `Expected integer, found floating-point number.`). -/
def integerFromIdn (s : RState) : RRes Integer :=
  match numberFromIdn s with
  | .panic => .panic
  | .fatal e s' => .fatal e s'
  | .ok n s' =>
    match n with
    | .float f => .fatal ⟨f.span, msg ("Expected integer, found floating-point number.")⟩ s'
    | .integer i => .ok i s'

/-- `Reader::read_symbol`: one of a set of expected symbol characters. -/
def readSymbol (expected : List Char) (s : RState) : RRes Symbol :=
  match Element.tryFromIdn s with
  | .panic => .panic
  | .ok none =>
    .fatal ⟨s.toks.span, msg ("Expected symbol ") ++ expected ++ msg (".")⟩ s
  | .ok (some (el, s')) =>
    match el with
    | .symbol sym =>
      if expected.contains sym.value then .ok sym s'
      else
        .fatal ⟨el.span, msg ("Expected symbol ") ++ expected ++ msg (", found ") ++
          describeElement el ++ msg (".")⟩ s'
    | _ =>
      .fatal ⟨el.span, msg ("Expected symbol ") ++ expected ++ msg (", found ") ++
        describeElement el ++ msg (".")⟩ s'

/-- `Reader::try_read_symbol`: peek first; only when the next token is one of
the expected symbol characters, `read()` it (`expect` panics on a read
error). -/
def tryReadSymbol (expected : List Char) (s : RState) :
    PRes (Option (Symbol × RState)) :=
  match s.toks.peek with
  | some (.symbol sym) =>
    if expected.contains sym.value then
      match symbolFromIdn s with
      | .ok sym' s' => .ok (some (sym', s'))
      | .fatal _ _ => .panic
      | .panic => .panic
    else .ok none
  | _ => .ok none

/-- `Reader::try_read_word`. -/
def tryReadWord (expected : List Char) (s : RState) :
    PRes (Option (Word × RState)) :=
  match s.toks.peek with
  | some (.word w) =>
    if w.value = expected then
      match wordFromIdn s with
      | .ok w' s' => .ok (some (w', s'))
      | .fatal _ _ => .panic
      | .panic => .panic
    else .ok none
  | _ => .ok none

/-- `Reader::read_group`: require the next element to be a group with the
given opening delimiter.  The source wraps the contents in a sub-reader
sharing the parent context; callers here build the sub-state explicitly. -/
def readGroup (openc : Char) (s : RState) : RRes Group :=
  match Element.tryFromIdn s with
  | .panic => .panic
  | .ok none =>
    .fatal ⟨s.toks.span, msg ("Expected group ") ++ describeChar openc ++
      describeChar (Delimiter.revChar openc) ++ msg (".")⟩ s
  | .ok (some (el, s')) =>
    match el with
    | .group g =>
      if g.openDelim.value = openc then .ok g s'
      else
        .fatal ⟨el.span, msg ("Expected group ") ++ describeChar openc ++
          describeChar (Delimiter.revChar openc) ++ msg (", found ") ++
          describeElement el ++ msg (".")⟩ s'
    | _ =>
      .fatal ⟨el.span, msg ("Expected group ") ++ describeChar openc ++
        describeChar (Delimiter.revChar openc) ++ msg (", found ") ++
        describeElement el ++ msg (".")⟩ s'

/-- `Reader::peek_str`: the next token's text when it is a string literal or
word, with its span; otherwise `none` at the window's start position. -/
def readerPeekStr (s : RState) : Option (List Char) × Span :=
  match s.toks.peek with
  | some (.stringLiteral sl) => (some sl.value, sl.span)
  | some (.word w) => (some w.value, w.span)
  | _ => (none, Span.ofPos s.toks.span.start)

/-- `Arc<str>::from_idn` (and through it `String::from_idn`): a string
literal or a word, anything else fatal. -/
def strFromIdn (s : RState) : RRes (List Char) :=
  match Element.tryFromIdn s with
  | .panic => .panic
  | .ok (some (.stringLiteral sl, s')) => .ok sl.value s'
  | .ok (some (.word w, s')) => .ok w.value s'
  | .ok (some (el, s')) =>
    .fatal ⟨el.span, msg ("Expected string or word, found ") ++
      describeElement el ++ msg (".")⟩ s'
  | .ok none => .fatal ⟨s.toks.span, msg ("Expected string or word.")⟩ s

/-! ## ListReader (`src/encoding/idn/syn/list.rs`) -/

theorem Element.tryFromIdn_not_none {s : RState} (h : ¬ s.toks.isEmpty = true) :
    Element.tryFromIdn s ≠ .ok none := by
  unfold Element.tryFromIdn
  rw [if_neg h]
  cases Element.fromIdn s <;> simp

/-- The element-consuming loop of `ListReader::next`: elements accumulate
into the current item until a bare `,` symbol is consumed (excluded from the
item by truncate-then-pop) or the next unconsumed token starts on a strictly
later line than the consumed element's last line. -/
def listNextLoop (tokens0 : Toks) (s : RState) : PRes (Toks × RState) :=
  match h : Element.tryFromIdn s with
  | .panic => .panic
  | .ok none => .ok (tokens0, s)
  | .ok (some (el, s')) =>
    if (match el with | .symbol sym => sym.value == ',' | _ => false) then
      .ok (((tokens0.truncateBefore s'.toks).pop), s')
    else
      match s'.toks.peek with
      | some tok =>
        if el.span.lastLine < tok.span.start.line then
          .ok (tokens0.truncateBefore s'.toks, s')
        else listNextLoop tokens0 s'
      | none => listNextLoop tokens0 s'
termination_by s.toks.size
decreasing_by
  all_goals exact Element.tryFromIdn_size h

/-- `ListReader::next`: `none` once the reader is empty, else a sub-reader
(sharing the context) over exactly the next item's tokens. -/
def listNext (s : RState) : PRes (Option (Toks × RState)) :=
  if s.toks.isEmpty then .ok none
  else
    match listNextLoop s.toks s with
    | .panic => .panic
    | .ok (item, s') => .ok (some (item, s'))

theorem listNextLoop_le_aux :
    ∀ (n : Nat) (tokens0 : Toks) (s : RState) (item : Toks) (s' : RState),
      s.toks.size ≤ n → listNextLoop tokens0 s = .ok (item, s') →
      s'.toks.size ≤ s.toks.size := by
  intro n
  induction n with
  | zero =>
    intro tokens0 s item s' hn h
    rw [listNextLoop] at h
    split at h
    · simp at h
    · simp only [PRes.ok.injEq, Prod.mk.injEq] at h
      obtain ⟨-, h⟩ := h
      subst h
      exact Nat.le_refl _
    · rename_i el s₁ heq
      have := Element.tryFromIdn_size heq
      omega
  | succ n ih =>
    intro tokens0 s item s' hn h
    rw [listNextLoop] at h
    split at h
    · simp at h
    · simp only [PRes.ok.injEq, Prod.mk.injEq] at h
      obtain ⟨-, h⟩ := h
      subst h
      exact Nat.le_refl _
    · rename_i el s₁ heq
      have hsz := Element.tryFromIdn_size heq
      split at h
      · simp only [PRes.ok.injEq, Prod.mk.injEq] at h
        obtain ⟨-, h⟩ := h
        subst h
        omega
      · split at h
        · split at h
          · simp only [PRes.ok.injEq, Prod.mk.injEq] at h
            obtain ⟨-, h⟩ := h
            subst h
            omega
          · have := ih tokens0 s₁ item s' (by omega) h
            omega
        · have := ih tokens0 s₁ item s' (by omega) h
          omega

theorem listNext_size {s : RState} {item : Toks} {s' : RState}
    (h : listNext s = .ok (some (item, s'))) : s'.toks.size < s.toks.size := by
  unfold listNext at h
  split at h
  · simp at h
  · rename_i hne
    cases hl : listNextLoop s.toks s with
    | panic => rw [hl] at h; simp at h
    | ok p =>
      obtain ⟨it, sx⟩ := p
      rw [hl] at h
      simp only [PRes.ok.injEq, Option.some.injEq, Prod.mk.injEq] at h
      obtain ⟨-, h⟩ := h
      subst h
      rw [listNextLoop] at hl
      split at hl
      · simp at hl
      · rename_i hnone
        exact absurd hnone (Element.tryFromIdn_not_none hne)
      · rename_i el s₁ heq
        have hsz := Element.tryFromIdn_size heq
        split at hl
        · simp only [PRes.ok.injEq, Prod.mk.injEq] at hl
          obtain ⟨-, hl⟩ := hl
          subst hl
          omega
        · split at hl
          · split at hl
            · simp only [PRes.ok.injEq, Prod.mk.injEq] at hl
              obtain ⟨-, hl⟩ := hl
              subst hl
              omega
            · have := listNextLoop_le_aux s₁.toks.size s.toks s₁ it sx (Nat.le_refl _) hl
              omega
          · have := listNextLoop_le_aux s₁.toks.size s.toks s₁ it sx (Nat.le_refl _) hl
            omega

/-- `ListReader::read_next`: decode the next item's sub-reader to its end. -/
def readNextList (d : RState → RRes α) (s : RState) : RRes (Option α) :=
  match listNext s with
  | .panic => .panic
  | .ok none => .ok none s
  | .ok (some (item, s')) =>
    match readToEnd d ⟨item, s'.errors⟩ with
    | .panic => .panic
    | .fatal e si => .fatal e ⟨s'.toks, si.errors⟩
    | .ok a si => .ok (some a) ⟨s'.toks, si.errors⟩

/-! ## Integer decode rules (`from_idn.rs`, `impl_for_int!`) -/

/-- The fatal message of `impl_for_int!` for a magnitude above `MAX`. -/
def intRangeHighMsg (MAX : Nat) : List Char :=
  msg ("Expected integer less than or equal to ") ++ (Nat.repr MAX).data ++ msg (".")

/-- The fatal message of `impl_for_int!` for a magnitude below `MIN = -(MAX+1)`. -/
def intRangeLowMsg (MAX : Nat) : List Char :=
  msg ("Expected integer greater than or equal to -") ++ (Nat.repr (MAX + 1)).data ++ msg (".")

/-- `impl_for_int!` instantiated at a signed type whose maximum is `MAX`
(`i8`/`i16`/`i32`/`i64` use `2^7-1`/`2^15-1`/`2^31-1`/`2^63-1`; `MIN` is
`-(MAX+1)`): an optional `+`/`-` symbol, an `Integer` token, then the
range analysis of the magnitude. -/
def intFromIdn (MAX : Nat) (s : RState) : RRes Int :=
  match tryReadSymbol ['+', '-'] s with
  | .panic => .panic
  | .ok pre =>
    let prefixOpt := pre.map Prod.fst
    let s₁ := match pre with | some (_, sx) => sx | none => s
    match integerFromIdn s₁ with
    | .panic => .panic
    | .fatal e s₂ => .fatal e s₂
    | .ok integer s₂ =>
      let value := integer.value
      let isNeg := match prefixOpt with | some p => p.value == '-' | none => false
      let span := match prefixOpt with
        | some p => Span.union integer.span p.span
        | none => integer.span
      match isNeg with
      | false =>
        if value > MAX then .fatal ⟨span, intRangeHighMsg MAX⟩ s₂
        else .ok (Int.ofNat value) s₂
      | true =>
        if value > MAX + 1 then .fatal ⟨span, intRangeLowMsg MAX⟩ s₂
        else if value > MAX then .ok (-(Int.ofNat (MAX + 1))) s₂
        else .ok (-(Int.ofNat value)) s₂

/-! ## Declarations (`src/encoding/idn/syn/declaration.rs`) -/

/-- `syn::Declaration`: a key/value property or a bare item; the key and
value sub-readers are represented by their token windows (they share the
parent's context). -/
inductive Declaration where
  | property (key : Toks) (eq : Symbol) (value : Toks)
  | item (toks : Toks)

/-- `Property::from_idn`: capture the key as everything one element read
consumes (via clone + truncate-before), require `=`, take the rest as the
value sub-reader. -/
def propertyFromIdn (s : RState) : RRes (Toks × Symbol × Toks) :=
  let keyTokens := s.toks
  match Element.tryFromIdn s with
  | .panic => .panic
  | .ok none => .fatal ⟨s.toks.span, msg ("Expected property.")⟩ s
  | .ok (some (_, s₁)) =>
    let key := keyTokens.truncateBefore s₁.toks
    match readSymbol ['='] s₁ with
    | .panic => .panic
    | .fatal e s₂ => .fatal e s₂
    | .ok eq s₂ =>
      match readToEnd readerFromIdn s₂ with
      | .panic => .panic
      | .fatal e s₃ => .fatal e s₃
      | .ok value s₃ => .ok (key, eq, value) s₃

/-- `Declaration::from_idn`: look ahead on a throwaway clone of the token
window — a Property exactly when the first token is an *Integer* number, a
string literal or a word, and the second token is the symbol `=` — then
re-read the real input with `read_to_end` as the chosen alternative. -/
def declFromIdn (s : RState) : RRes Declaration :=
  if s.toks.isEmpty then .fatal ⟨s.toks.span, msg ("Expected declaration.")⟩ s
  else
    match (s.toks.next).1 with
    | none => .panic
    | some tok =>
      let isProperty :=
        match tok with
        | .number (.integer _) | .stringLiteral _ | .word _ =>
          (match (((s.toks.next).2).next).1 with
           | some (.symbol sym) => sym.value == '='
           | _ => false)
        | _ => false
      match isProperty with
      | true =>
        match readToEnd propertyFromIdn s with
        | .panic => .panic
        | .fatal e s' => .fatal e s'
        | .ok (k, eq, v) s' => .ok (.property k eq v) s'
      | false =>
        match readToEnd readerFromIdn s with
        | .panic => .panic
        | .fatal e s' => .fatal e s'
        | .ok t s' => .ok (.item t) s'

/-! ## Map decode (`HashMap::from_idn`) and the block-style record contract
(`proc-macros/src/from_idn/gen.rs`) -/

/-- The item loop of `HashMap::from_idn`: for each list item decode a key,
require `=`, decode the item's remaining tokens as the value, and insert
(`HashMap::insert` replaces any existing entry for an equal key).  The map is
modelled extensionally as `κ → Option ν`. -/
def mapLoop [DecidableEq κ] (kd : RState → RRes κ) (vd : RState → RRes ν)
    (s : RState) (m : κ → Option ν) : RRes (κ → Option ν) :=
  match h : listNext s with
  | .panic => .panic
  | .ok none => .ok m s
  | .ok (some (item, s')) =>
    match kd ⟨item, s'.errors⟩ with
    | .panic => .panic
    | .fatal e si => .fatal e ⟨s'.toks, si.errors⟩
    | .ok k si =>
      match readSymbol ['='] si with
      | .panic => .panic
      | .fatal e sj => .fatal e ⟨s'.toks, sj.errors⟩
      | .ok _ sj =>
        match readToEnd vd sj with
        | .panic => .panic
        | .fatal e sk => .fatal e ⟨s'.toks, sk.errors⟩
        | .ok v sk =>
          mapLoop kd vd ⟨s'.toks, sk.errors⟩ (fun k' => if k' = k then some v else m k')
termination_by s.toks.size
decreasing_by
  all_goals exact listNext_size h

/-- `HashMap::from_idn`: a `{`-group whose list items are `key = value`
pairs. -/
def hashMapFromIdn [DecidableEq κ] (kd : RState → RRes κ) (vd : RState → RRes ν)
    (s : RState) : RRes (κ → Option ν) :=
  match readGroup '{' s with
  | .panic => .panic
  | .fatal e s' => .fatal e s'
  | .ok g s' =>
    match mapLoop kd vd ⟨g.contents, s'.errors⟩ (fun _ => none) with
    | .panic => .panic
    | .fatal e sk => .fatal e ⟨s'.toks, sk.errors⟩
    | .ok m sk => .ok m ⟨s'.toks, sk.errors⟩

/-- The declaration loop of `read_fields_from_block` for a record with a
single `property`-kind field and no catch-all, as generated by
`proc-macros/src/from_idn/gen.rs`: a matching key consumes the key and the
`=` and decodes the value when the field is still unset, or records a
non-fatal `Duplicate ...` error (the value is not decoded) when it was
already set; an unknown key is skipped, probed for a following `=`, and
recorded as a non-fatal unknown-key error; a keyless item is `finish`ed. -/
def recordBlockLoop (fieldName : List Char) (vd : RState → RRes ν)
    (s : RState) (a : Option ν) : RRes (Option ν) :=
  match h : listNext s with
  | .panic => .panic
  | .ok none => .ok a s
  | .ok (some (item, s')) =>
    match readerPeekStr ⟨item, s'.errors⟩ with
    | (some k, keySpan) =>
      if k = fieldName then
        match skip ⟨item, s'.errors⟩ with
        | .panic => .panic
        | .ok (_, s₁) =>
          match readSymbol ['='] s₁ with
          | .panic => .panic
          | .fatal e s₂ => .fatal e ⟨s'.toks, s₂.errors⟩
          | .ok _ s₂ =>
            match a with
            | none =>
              match readToEnd vd s₂ with
              | .panic => .panic
              | .fatal e s₃ => .fatal e ⟨s'.toks, s₃.errors⟩
              | .ok v s₃ => recordBlockLoop fieldName vd ⟨s'.toks, s₃.errors⟩ (some v)
            | some _ =>
              recordBlockLoop fieldName vd
                ⟨s'.toks, s₂.errors ++
                  [⟨keySpan, msg ("Duplicate ") ++ fieldName ++ msg (" property.")⟩]⟩ a
      else
        match skip ⟨item, s'.errors⟩ with
        | .panic => .panic
        | .ok (_, s₁) =>
          match tryReadSymbol ['='] s₁ with
          | .panic => .panic
          | .ok pr =>
            let s₂ := match pr with | some (_, sx) => sx | none => s₁
            recordBlockLoop fieldName vd
              ⟨s'.toks, s₂.errors ++
                [⟨keySpan, msg ("Unknown key ") ++ k ++ msg (".")⟩]⟩ a
    | (none, _) =>
      match finish ⟨item, s'.errors⟩ with
      | .panic => .panic
      | .ok s₁ => recordBlockLoop fieldName vd ⟨s'.toks, s₁.errors⟩ a
termination_by s.toks.size
decreasing_by
  all_goals exact listNext_size h

/-- `impl FromIdn` generated for a block-style record with one required
`property` field: read a `{`-group, scan its declarations, and fail with a
`Missing ...` error at the closing delimiter's span when the field was never
set. -/
def recordBlockProperty (fieldName : List Char) (vd : RState → RRes ν)
    (s : RState) : RRes ν :=
  match readGroup '{' s with
  | .panic => .panic
  | .fatal e s' => .fatal e s'
  | .ok g s' =>
    match recordBlockLoop fieldName vd ⟨g.contents, s'.errors⟩ none with
    | .panic => .panic
    | .fatal e sk => .fatal e ⟨s'.toks, sk.errors⟩
    | .ok a sk =>
      match a with
      | none =>
        .fatal ⟨g.closeDelim.span, msg ("Missing ") ++ fieldName ++ msg (".")⟩
          ⟨s'.toks, sk.errors⟩
      | some v => .ok v ⟨s'.toks, sk.errors⟩

/-- One step of `HashMap::from_idn`'s loop on an exhausted list. -/
theorem mapLoop_nil [inst : DecidableEq κ] {kd : RState → RRes κ}
    {vd : RState → RRes ν} {s : RState} {m : κ → Option ν}
    (h : listNext s = .ok none) : mapLoop kd vd s m = .ok m s := by
  rw [mapLoop]
  split
  · rename_i heq
    rw [h] at heq
    simp at heq
  · rfl
  · rename_i item s' heq
    rw [h] at heq
    simp at heq

/-- One step of `HashMap::from_idn`'s loop on a well-formed `key = value`
item: the key, the mandatory `=`, and the item's remaining tokens decode in
order, and the binding is inserted by plain function update — a duplicate
key silently overwrites, and no error is recorded beyond those the three
decodes themselves produced. -/
theorem mapLoop_cons [inst : DecidableEq κ] {kd : RState → RRes κ}
    {vd : RState → RRes ν} {s s' si sj sk : RState} {item : Toks} {k : κ}
    {u : Symbol} {v : ν} {m : κ → Option ν}
    (h1 : listNext s = .ok (some (item, s')))
    (h2 : kd ⟨item, s'.errors⟩ = .ok k si)
    (h3 : readSymbol ['='] si = .ok u sj)
    (h4 : readToEnd vd sj = .ok v sk) :
    mapLoop kd vd s m =
      mapLoop kd vd ⟨s'.toks, sk.errors⟩ (fun x => if x = k then some v else m x) := by
  rw [mapLoop]
  split
  · rename_i heq
    rw [h1] at heq
    simp at heq
  · rename_i heq
    rw [h1] at heq
    simp at heq
  · rename_i item0 s0 heq
    rw [h1] at heq
    simp only [PRes.ok.injEq, Option.some.injEq, Prod.mk.injEq] at heq
    obtain ⟨hi, hs⟩ := heq
    subst hi
    subst hs
    simp only [h2, h3, h4]

/-- One step of the record-block loop on an exhausted list. -/
theorem recordBlockLoop_nil {vd : RState → RRes ν} {fieldName : List Char}
    {s : RState} {a : Option ν} (h : listNext s = .ok none) :
    recordBlockLoop fieldName vd s a = .ok a s := by
  rw [recordBlockLoop]
  split
  · rename_i heq
    rw [h] at heq
    simp at heq
  · rfl
  · rename_i item s' heq
    rw [h] at heq
    simp at heq

/-- One step of the record-block loop on a matching key whose field is still
unset: the value is decoded and the field is set. -/
theorem recordBlockLoop_set {vd : RState → RRes ν} {fieldName : List Char}
    {s s' s₁ s₂ s₃ : RState} {item : Toks} {keySpan : Span} {b : Bool}
    {u : Symbol} {v : ν}
    (h1 : listNext s = .ok (some (item, s')))
    (h2 : readerPeekStr ⟨item, s'.errors⟩ = (some fieldName, keySpan))
    (h3 : skip ⟨item, s'.errors⟩ = .ok (b, s₁))
    (h4 : readSymbol ['='] s₁ = .ok u s₂)
    (h5 : readToEnd vd s₂ = .ok v s₃) :
    recordBlockLoop fieldName vd s none =
      recordBlockLoop fieldName vd ⟨s'.toks, s₃.errors⟩ (some v) := by
  rw [recordBlockLoop]
  split
  · rename_i heq
    rw [h1] at heq
    simp at heq
  · rename_i heq
    rw [h1] at heq
    simp at heq
  · rename_i item0 s0 heq
    rw [h1] at heq
    simp only [PRes.ok.injEq, Option.some.injEq, Prod.mk.injEq] at heq
    obtain ⟨hi, hs⟩ := heq
    subst hi
    subst hs
    simp only [h2, h3, h4, h5, eq_self_iff_true, if_true]

/-- One step of the record-block loop on a matching key whose field was
already set: the earlier value is kept, the value tokens are not decoded,
and a non-fatal `Duplicate ... property.` error is appended at the key's
span. -/
theorem recordBlockLoop_dup {vd : RState → RRes ν} {fieldName : List Char}
    {s s' s₁ s₂ : RState} {item : Toks} {keySpan : Span} {b : Bool}
    {u : Symbol} {v0 : ν}
    (h1 : listNext s = .ok (some (item, s')))
    (h2 : readerPeekStr ⟨item, s'.errors⟩ = (some fieldName, keySpan))
    (h3 : skip ⟨item, s'.errors⟩ = .ok (b, s₁))
    (h4 : readSymbol ['='] s₁ = .ok u s₂) :
    recordBlockLoop fieldName vd s (some v0) =
      recordBlockLoop fieldName vd
        ⟨s'.toks, s₂.errors ++
          [⟨keySpan, msg ("Duplicate ") ++ fieldName ++ msg (" property.")⟩]⟩
        (some v0) := by
  rw [recordBlockLoop]
  split
  · rename_i heq
    rw [h1] at heq
    simp at heq
  · rename_i heq
    rw [h1] at heq
    simp at heq
  · rename_i item0 s0 heq
    rw [h1] at heq
    simp only [PRes.ok.injEq, Option.some.injEq, Prod.mk.injEq] at heq
    obtain ⟨hi, hs⟩ := heq
    subst hi
    subst hs
    simp only [h2, h3, h4, eq_self_iff_true, if_true]

/-! ## Top-level `parse` (`src/encoding/idn.rs`) -/

/-- `idn::parse`, parameterised by the target type's decode procedure:
lexer errors short-circuit; otherwise a fresh reader (with an empty error
list) runs `read_to_end`, and the outcome is `Ok(value)` only when the
accumulated list is empty, the accumulated list itself when it is not, and
the accumulated list with the fatal error appended when the decode failed
fatally. -/
def parse (d : RState → RRes α) (input : List Char) : PRes (Except ErrorList α) :=
  match lex input with
  | .error es => .ok (.error es)
  | .ok toks =>
    match readToEnd d ⟨toks, []⟩ with
    | .panic => .panic
    | .ok v s' =>
      if s'.errors.length > 0 then .ok (.error s'.errors) else .ok (.ok v)
    | .fatal e s' => .ok (.error (s'.errors ++ [e]))

/-! ### View-level characterization of window operations -/

theorem Toks.peek_eq_head (t : Toks) : t.peek = t.view.head? := rfl

theorem Toks.view_nil_isEmpty {t : Toks} (h : t.view = []) : t.isEmpty = true := by
  unfold Toks.isEmpty
  rw [h]
  rfl

theorem Toks.view_cons_not_isEmpty {t : Toks} {x xs} (h : t.view = x :: xs) :
    t.isEmpty = false := by
  unfold Toks.isEmpty
  rw [h]
  rfl

theorem Toks.next_view {t : Toks} {x : Token} {xs : List Token} (h : t.view = x :: xs) :
    ((t.next).2).view = xs := by
  have hp : t.peek = some x := by rw [Toks.peek_eq_head, h]; rfl
  rw [Toks.next_some hp]
  show (Toks.updateSpan { t with start := t.start + 1 }).view = xs
  rw [Toks.updateSpan_view]
  unfold Toks.view at h ⊢
  rcases hl : t.list.drop t.start with - | ⟨y, ys⟩
  · rw [hl] at h
    simp at h
  · rw [hl] at h
    rcases hss : t.stop - t.start with - | k
    · rw [hss] at h
      simp at h
    · rw [hss] at h
      simp only [List.take_succ_cons, List.cons.injEq] at h
      obtain ⟨-, h⟩ := h
      have hdrop : t.list.drop (t.start + 1) = ys := by
        have h2 := List.drop_drop 1 t.start t.list
        rw [hl] at h2
        simp only [List.drop_succ_cons, List.drop_zero] at h2
        exact h2.symm
      rw [hdrop]
      show ys.take (t.stop - (t.start + 1)) = xs
      have : t.stop - (t.start + 1) = k := by omega
      rw [this, h]

theorem Toks.next_bid {t : Toks} : ((t.next).2).bid = t.bid := by
  unfold Toks.next
  cases t.peek
  · rfl
  · simp only
    rw [Toks.updateSpan_bid]

theorem Toks.next_fields {t : Toks} {x : Token} {xs : List Token}
    (h : t.view = x :: xs) :
    (t.next).1 = some x ∧ ((t.next).2).start = t.start + 1 ∧
    ((t.next).2).stop = t.stop ∧ ((t.next).2).list = t.list ∧
    ((t.next).2).bid = t.bid := by
  have hp : t.peek = some x := by rw [Toks.peek_eq_head, h]; rfl
  rw [Toks.next_some hp]
  refine ⟨rfl, ?_, ?_, ?_, ?_⟩
  · show (Toks.updateSpan { t with start := t.start + 1 }).start = t.start + 1
    rw [Toks.updateSpan_start]
  · show (Toks.updateSpan { t with start := t.start + 1 }).stop = t.stop
    rw [Toks.updateSpan_stop]
  · show (Toks.updateSpan { t with start := t.start + 1 }).list = t.list
    rw [Toks.updateSpan_list]
  · show (Toks.updateSpan { t with start := t.start + 1 }).bid = t.bid
    rw [Toks.updateSpan_bid]

/-- The element built from one non-delimiter token (proof-layer helper for
the arms of `Element::from_idn`; the delimiter case is arbitrary and is
excluded wherever this is used). -/
def elementOfToken : Token → Element
  | .delimiter d => .symbol ⟨d.span, d.value⟩
  | .number n => .number n
  | .stringLiteral sl => .stringLiteral sl
  | .symbol sym => .symbol sym
  | .word w => .word w

theorem Element.fromIdn_front_nondelim {s : RState} {x : Token} {xs : List Token}
    (hv : s.toks.view = x :: xs) (hnd : ∀ d, x ≠ .delimiter d) :
    Element.fromIdn s = .ok (elementOfToken x) { s with toks := (s.toks.next).2 } := by
  have hp : s.toks.peek = some x := by rw [Toks.peek_eq_head, hv]; rfl
  unfold Element.fromIdn
  have hg : Group.tryFromTokens s.toks = .ok none := by
    unfold Group.tryFromTokens
    rw [hp]
    cases x with
    | delimiter d => exact absurd rfl (hnd d)
    | number n => rfl
    | stringLiteral sl => rfl
    | symbol sym => rfl
    | word w => rfl
  rw [hg]
  simp only
  rw [Toks.next_some hp]
  cases x with
  | delimiter d => exact absurd rfl (hnd d)
  | number n => rfl
  | stringLiteral sl => rfl
  | symbol sym => rfl
  | word w => rfl

theorem Element.tryFromIdn_front_nondelim {s : RState} {x : Token} {xs : List Token}
    (hv : s.toks.view = x :: xs) (hnd : ∀ d, x ≠ .delimiter d) :
    Element.tryFromIdn s =
      .ok (some (elementOfToken x, { s with toks := (s.toks.next).2 })) := by
  unfold Element.tryFromIdn
  rw [if_neg (by rw [Toks.view_cons_not_isEmpty hv]; simp)]
  rw [Element.fromIdn_front_nondelim hv hnd]

theorem Element.tryFromIdn_empty {s : RState} (hv : s.toks.view = []) :
    Element.tryFromIdn s = .ok none := by
  unfold Element.tryFromIdn
  rw [if_pos (Toks.view_nil_isEmpty hv)]

theorem Toks.drain_view_aux : ∀ (n : Nat) (t : Toks), t.size ≤ n → (t.drain).view = [] := by
  intro n
  induction n with
  | zero =>
    intro t hn
    rw [Toks.drain]
    split
    · rename_i hp
      rw [Toks.peek_eq_head] at hp
      exact List.head?_eq_none_iff.mp hp
    · rename_i x hp
      have := Toks.next_snd_size hp
      omega
  | succ n ih =>
    intro t hn
    rw [Toks.drain]
    split
    · rename_i hp
      rw [Toks.peek_eq_head] at hp
      exact List.head?_eq_none_iff.mp hp
    · rename_i x hp
      have := Toks.next_snd_size hp
      exact ih _ (by omega)

/-- `Tokens::drain` leaves the window empty. -/
theorem Toks.drain_view (t : Toks) : (t.drain).view = [] :=
  Toks.drain_view_aux t.size t (Nat.le_refl _)

/-- Reading one element never touches the shared error list. -/
theorem Element.fromIdn_errors {s : RState} {el : Element} {s' : RState}
    (h : Element.fromIdn s = .ok el s') : s'.errors = s.errors := by
  unfold Element.fromIdn at h
  cases hg : Group.tryFromTokens s.toks with
  | panic =>
    rw [hg] at h
    simp at h
  | ok o =>
    rw [hg] at h
    cases o with
    | some p =>
      obtain ⟨g, t'⟩ := p
      simp only [RRes.ok.injEq] at h
      obtain ⟨-, h⟩ := h
      subst h
      rfl
    | none =>
      simp only [] at h
      cases hn : s.toks.next with
      | mk fst snd =>
        rw [hn] at h
        cases fst with
        | none => simp at h
        | some tok =>
          cases tok with
          | delimiter d => simp at h
          | number n =>
            simp only [RRes.ok.injEq] at h
            obtain ⟨-, h⟩ := h
            subst h
            rfl
          | stringLiteral sl =>
            simp only [RRes.ok.injEq] at h
            obtain ⟨-, h⟩ := h
            subst h
            rfl
          | symbol sym =>
            simp only [RRes.ok.injEq] at h
            obtain ⟨-, h⟩ := h
            subst h
            rfl
          | word w =>
            simp only [RRes.ok.injEq] at h
            obtain ⟨-, h⟩ := h
            subst h
            rfl

theorem Element.tryFromIdn_errors {s : RState} {el : Element} {s' : RState}
    (h : Element.tryFromIdn s = .ok (some (el, s'))) : s'.errors = s.errors := by
  unfold Element.tryFromIdn at h
  split at h
  · simp at h
  · cases hf : Element.fromIdn s with
    | ok el2 s2 =>
      rw [hf] at h
      simp only [PRes.ok.injEq, Option.some.injEq, Prod.mk.injEq] at h
      obtain ⟨-, h⟩ := h
      subst h
      exact Element.fromIdn_errors hf
    | fatal e s2 =>
      rw [hf] at h
      simp at h
    | panic =>
      rw [hf] at h
      simp at h

/-! # Claim theorems -/

theorem Toks.isEmpty_size {t : Toks} (hwf : t.WF) (h : t.isEmpty = true) :
    t.stop = t.start := by
  obtain ⟨h1, h2⟩ := hwf
  unfold Toks.isEmpty at h
  rw [List.isEmpty_iff] at h
  have hv : t.view.length = 0 := by rw [h]; rfl
  unfold Toks.view at hv
  simp only [List.length_take, List.length_drop] at hv
  omega

/-- C10: every window operation — `next`, `pop`, `truncate_before` —
preserves `start ≤ stop ≤ length` (the precondition of the source's
`&list[range]` slicing in `list()`/`peek()`); `pop` and `truncate_before`
clamp the new end between `start` and the old end; `pop` on an empty window
leaves the range unchanged, and `truncate_before` against a window with a
different backing array is a complete no-op. -/
theorem tokens_window_ops_preserve_invariant (t u : Toks) (hwf : t.WF) :
    ((t.next).2).WF ∧ (t.pop).WF ∧ (t.truncateBefore u).WF ∧
    ((t.pop).start = t.start ∧ t.start ≤ (t.pop).stop ∧ (t.pop).stop ≤ t.stop) ∧
    ((t.truncateBefore u).start = t.start ∧ t.start ≤ (t.truncateBefore u).stop ∧
      (t.truncateBefore u).stop ≤ t.stop) ∧
    (t.isEmpty = true → (t.pop).start = t.start ∧ (t.pop).stop = t.stop) ∧
    (t.bid ≠ u.bid → t.truncateBefore u = t) := by
  obtain ⟨h1, h2⟩ := hwf
  refine ⟨?_, ?_, ?_, ?_, ?_, ?_, ?_⟩
  · cases hp : t.peek with
    | none => rw [Toks.next_none hp]; exact ⟨h1, h2⟩
    | some tok =>
      have hsz := Toks.peek_some_size hp
      unfold Toks.size at hsz
      rw [Toks.next_some hp]
      refine ⟨?_, ?_⟩
      · show (Toks.updateSpan { t with start := t.start + 1 }).start ≤
          (Toks.updateSpan { t with start := t.start + 1 }).stop
        rw [Toks.updateSpan_start, Toks.updateSpan_stop]
        show t.start + 1 ≤ t.stop
        omega
      · show (Toks.updateSpan { t with start := t.start + 1 }).stop ≤
          (Toks.updateSpan { t with start := t.start + 1 }).list.length
        rw [Toks.updateSpan_stop, Toks.updateSpan_list]
        show t.stop ≤ t.list.length
        omega
  · unfold Toks.pop Toks.WF
    rw [Toks.updateSpan_start, Toks.updateSpan_stop, Toks.updateSpan_list]
    show t.start ≤ min t.stop (max t.start (t.stop - 1)) ∧
      min t.stop (max t.start (t.stop - 1)) ≤ t.list.length
    omega
  · unfold Toks.truncateBefore
    split
    · exact ⟨h1, h2⟩
    · unfold Toks.WF
      rw [Toks.updateSpan_start, Toks.updateSpan_stop, Toks.updateSpan_list]
      show t.start ≤ min t.stop (max t.start u.start) ∧
        min t.stop (max t.start u.start) ≤ t.list.length
      omega
  · unfold Toks.pop
    rw [Toks.updateSpan_start, Toks.updateSpan_stop]
    refine ⟨by trivial, ?_, ?_⟩
    · show t.start ≤ min t.stop (max t.start (t.stop - 1))
      omega
    · show min t.stop (max t.start (t.stop - 1)) ≤ t.stop
      omega
  · unfold Toks.truncateBefore
    split
    · exact ⟨by trivial, h1, Nat.le_refl _⟩
    · rw [Toks.updateSpan_start, Toks.updateSpan_stop]
      refine ⟨by trivial, ?_, ?_⟩
      · show t.start ≤ min t.stop (max t.start u.start)
        omega
      · show min t.stop (max t.start u.start) ≤ t.stop
        omega
  · intro hemp
    have hss := Toks.isEmpty_size ⟨h1, h2⟩ hemp
    unfold Toks.pop
    rw [Toks.updateSpan_start, Toks.updateSpan_stop]
    refine ⟨by trivial, ?_⟩
    show min t.stop (max t.start (t.stop - 1)) = t.stop
    omega
  · intro hbid
    unfold Toks.truncateBefore
    rw [if_pos hbid]

/-- Witness for C10 at a concrete window and a foreign-backing window. -/
theorem tokens_window_ops_preserve_invariant_witness :
    (Toks.new ⟨Pos.zero, Pos.zero⟩ [Token.symbol ⟨⟨Pos.zero, Pos.zero⟩, ','⟩] 0).WF ∧
    ((Toks.new ⟨Pos.zero, Pos.zero⟩ [Token.symbol ⟨⟨Pos.zero, Pos.zero⟩, ','⟩] 0).truncateBefore
      (Toks.new ⟨Pos.zero, Pos.zero⟩ [] 1)) =
      Toks.new ⟨Pos.zero, Pos.zero⟩ [Token.symbol ⟨⟨Pos.zero, Pos.zero⟩, ','⟩] 0 := by
  constructor
  · exact ⟨by decide, by decide⟩
  · exact (tokens_window_ops_preserve_invariant
      (Toks.new ⟨Pos.zero, Pos.zero⟩ [Token.symbol ⟨⟨Pos.zero, Pos.zero⟩, ','⟩] 0)
      (Toks.new ⟨Pos.zero, Pos.zero⟩ [] 1) ⟨by decide, by decide⟩).2.2.2.2.2.2 (by decide)

/-- C1: `parse` returns `Ok` only when the accumulated error list is empty at
the end of the parse; a fatal decode error is appended to the (possibly
non-empty) accumulated list and the whole list is returned; lexer errors
short-circuit before any decoding begins. -/
theorem parse_error_accumulation (d : RState → RRes α) (input : List Char) :
    (∀ es, lex input = .error es → parse d input = .ok (.error es)) ∧
    (∀ v, parse d input = .ok (.ok v) →
      ∃ toks s', lex input = .ok toks ∧ readToEnd d ⟨toks, []⟩ = .ok v s' ∧
        s'.errors = []) ∧
    (∀ toks e s', lex input = .ok toks → readToEnd d ⟨toks, []⟩ = .fatal e s' →
      parse d input = .ok (.error (s'.errors ++ [e]))) := by
  refine ⟨?_, ?_, ?_⟩
  · intro es h
    unfold parse
    rw [h]
  · intro v h
    unfold parse at h
    cases hl : lex input with
    | error es => rw [hl] at h; simp at h
    | ok toks =>
      rw [hl] at h
      simp only [] at h
      cases hr : readToEnd d ⟨toks, []⟩ with
      | panic => rw [hr] at h; simp at h
      | fatal e s' => rw [hr] at h; simp at h
      | ok v' s' =>
        rw [hr] at h
        simp only [] at h
        split at h
        · simp at h
        · rename_i hlen
          simp only [PRes.ok.injEq, Except.ok.injEq] at h
          subst h
          exact ⟨toks, s', rfl, hr, List.length_eq_zero.mp (by omega)⟩
  · intro toks e s' hl hr
    unfold parse
    rw [hl]
    simp [hr]

theorem parse_error_accumulation_witness :
    parse wordFromIdn (msg ("1")) =
      .ok (.error [⟨⟨⟨0,1,1⟩,⟨1,1,2⟩⟩, msg ("Expected word, found integer.")⟩]) := by
  have hlex : lex (msg ("1")) =
      .ok ⟨⟨⟨0,1,1⟩,⟨1,1,2⟩⟩,
        [Token.number (.integer ⟨⟨⟨0,1,1⟩,⟨1,1,2⟩⟩, 1⟩)], 0, 0, 1⟩ := by
    simp [msg, lex, lexRun, lexLoop, readNumber, readNumberDecimal, readNumberDigits,
      takeDigits, digitsToNat, peekNumberDecimal, peekCharExact, readChar, readCharExact,
      isWordStart, isSymbolChar, Pos.advance, Pos.zero, Token.span, Number.span,
      Char.utf8Size, Span.ofPos, Toks.new,
      Toks.updateSpan, Toks.view, unmatchedError]
  have hfat : readToEnd wordFromIdn
      ⟨⟨⟨⟨0,1,1⟩,⟨1,1,2⟩⟩,
        [Token.number (.integer ⟨⟨⟨0,1,1⟩,⟨1,1,2⟩⟩, 1⟩)], 0, 0, 1⟩, []⟩ =
      .fatal ⟨⟨⟨0,1,1⟩,⟨1,1,2⟩⟩, msg ("Expected word, found integer.")⟩
        ⟨⟨⟨⟨0,1,1⟩,⟨0,1,1⟩⟩,
          [Token.number (.integer ⟨⟨⟨0,1,1⟩,⟨1,1,2⟩⟩, 1⟩)], 0, 1, 1⟩, []⟩ := by
    simp [readToEnd, finish, wordFromIdn, readElementAs, Element.tryFromIdn,
      Element.fromIdn, Group.tryFromTokens, groupScan, Toks.updateSpan, Toks.view,
      Toks.peek, Toks.next, Toks.isEmpty, Toks.drain, Element.span, Token.span,
      Number.span, Span.union, Span.ofPos, elementOfToken, describeElement, msg]
  exact (parse_error_accumulation wordFromIdn (msg ("1"))).2.2 _ _ _ hlex hfat

theorem intFromIdn_run (MAX : Nat) (s : RState) (sgn : Option Symbol)
    (i : Integer) (rest : List Token)
    (hv : s.toks.view =
      (match sgn with | some sy => [Token.symbol sy] | none => []) ++
        Token.number (.integer i) :: rest)
    (hsgn : ∀ sy, sgn = some sy → sy.value = '+' ∨ sy.value = '-') :
    ∃ s₂ sp,
      intFromIdn MAX s =
        (match (match sgn with | some sy => sy.value == '-' | none => false) with
         | false =>
           if i.value > MAX then RRes.fatal ⟨sp, intRangeHighMsg MAX⟩ s₂
           else .ok (Int.ofNat i.value) s₂
         | true =>
           if i.value > MAX + 1 then RRes.fatal ⟨sp, intRangeLowMsg MAX⟩ s₂
           else if i.value > MAX then .ok (-(Int.ofNat (MAX + 1))) s₂
           else .ok (-(Int.ofNat i.value)) s₂) := by
  cases sgn with
  | none =>
    simp only [List.nil_append] at hv
    refine ⟨{ s with toks := (s.toks.next).2 }, i.span, ?_⟩
    have hp : s.toks.peek = some (Token.number (.integer i)) := by
      rw [Toks.peek_eq_head, hv]
      rfl
    have htr : tryReadSymbol ['+', '-'] s = .ok none := by
      unfold tryReadSymbol
      rw [hp]
    have hnum : numberFromIdn s = .ok (.integer i) { s with toks := (s.toks.next).2 } := by
      unfold numberFromIdn readElementAs
      rw [Element.tryFromIdn_front_nondelim hv (by simp)]
      rfl
    have hint : integerFromIdn s = .ok i { s with toks := (s.toks.next).2 } := by
      unfold integerFromIdn
      rw [hnum]
    unfold intFromIdn
    rw [htr]
    simp only []
    rw [hint]
    rfl
  | some sy =>
    simp only [List.cons_append, List.nil_append] at hv
    have hp : s.toks.peek = some (Token.symbol sy) := by
      rw [Toks.peek_eq_head, hv]
      rfl
    have hv₁ : ((s.toks.next).2).view = Token.number (.integer i) :: rest :=
      Toks.next_view hv
    have hsym : symbolFromIdn s = .ok sy { s with toks := (s.toks.next).2 } := by
      unfold symbolFromIdn readElementAs
      rw [Element.tryFromIdn_front_nondelim hv (by simp)]
      rfl
    have hcont : (['+', '-'].contains sy.value) = true := by
      rcases hsgn sy rfl with h | h <;> rw [h] <;> rfl
    have htr : tryReadSymbol ['+', '-'] s =
        .ok (some (sy, { s with toks := (s.toks.next).2 })) := by
      unfold tryReadSymbol
      rw [hp]
      simp only [hcont, if_true]
      rw [hsym]
    set s₁ : RState := { s with toks := (s.toks.next).2 } with hs₁
    have hnum : numberFromIdn s₁ = .ok (.integer i) { s₁ with toks := (s₁.toks.next).2 } := by
      unfold numberFromIdn readElementAs
      rw [Element.tryFromIdn_front_nondelim hv₁ (by simp)]
      rfl
    have hint : integerFromIdn s₁ = .ok i { s₁ with toks := (s₁.toks.next).2 } := by
      unfold integerFromIdn
      rw [hnum]
    refine ⟨{ s₁ with toks := (s₁.toks.next).2 }, Span.union i.span sy.span, ?_⟩
    unfold intFromIdn
    rw [htr]
    simp only []
    rw [hint]
    rfl

/-- C4: for each signed target type (`i8`/`i16`/`i32`/`i64`, i.e. any
maximum `MAX` with minimum `-(MAX+1)`), decoding an optional sign symbol
followed by an `Integer` token succeeds exactly when the magnitude is at most
`MAX` (no `-`) or at most `MAX+1` (with `-`); the magnitude `MAX+1` under `-`
decodes to `MIN`, in-range magnitudes decode to themselves (negated under
`-`), one past either boundary is a fatal range error, and the literal texts
of `i8::MIN`/`i8::MAX`/`i64::MIN`/`i64::MAX` parse to those exact values
end-to-end. -/
theorem int_decode_range_boundaries :
    (∀ (MAX : Nat) (s : RState) (sgn : Option Symbol) (i : Integer)
       (rest : List Token) (isNeg : Bool),
      s.toks.view =
        (match sgn with | some sy => [Token.symbol sy] | none => []) ++
          Token.number (.integer i) :: rest →
      isNeg = (match sgn with | some sy => sy.value == '-' | none => false) →
      (∀ sy, sgn = some sy → sy.value = '+' ∨ sy.value = '-') →
      ((∃ v s', intFromIdn MAX s = .ok v s') ↔
        (if isNeg then i.value ≤ MAX + 1 else i.value ≤ MAX)) ∧
      (isNeg = false → i.value ≤ MAX →
        ∃ s', intFromIdn MAX s = .ok (Int.ofNat i.value) s') ∧
      (isNeg = true → i.value = MAX + 1 →
        ∃ s', intFromIdn MAX s = .ok (-(Int.ofNat (MAX + 1))) s') ∧
      (isNeg = true → i.value ≤ MAX →
        ∃ s', intFromIdn MAX s = .ok (-(Int.ofNat i.value)) s') ∧
      (isNeg = false → MAX < i.value →
        ∃ sp s', intFromIdn MAX s = .fatal ⟨sp, intRangeHighMsg MAX⟩ s') ∧
      (isNeg = true → MAX + 1 < i.value →
        ∃ sp s', intFromIdn MAX s = .fatal ⟨sp, intRangeLowMsg MAX⟩ s')) ∧
    parse (intFromIdn 127) (msg ("-128")) = .ok (.ok (-128)) ∧
    parse (intFromIdn 127) (msg ("127")) = .ok (.ok 127) ∧
    parse (intFromIdn 9223372036854775807) (msg ("-9223372036854775808")) =
      .ok (.ok (-9223372036854775808)) ∧
    parse (intFromIdn 9223372036854775807) (msg ("9223372036854775807")) =
      .ok (.ok 9223372036854775807) := by
  constructor
  · intro MAX s sgn i rest isNeg hv hneg hsgn
    obtain ⟨s₂, sp, hrun⟩ := intFromIdn_run MAX s sgn i rest hv hsgn
    rw [← hneg] at hrun
    cases isNeg with
    | false =>
      have hrun2 : intFromIdn MAX s =
          (if i.value > MAX then RRes.fatal ⟨sp, intRangeHighMsg MAX⟩ s₂
           else RRes.ok (Int.ofNat i.value) s₂) := hrun
      refine ⟨?_, ?_, ?_, ?_, ?_, ?_⟩
      · constructor
        · rintro ⟨v, s', h⟩
          rw [hrun2] at h
          simp only [Bool.false_eq_true, if_false]
          by_cases hgt : i.value > MAX
          · rw [if_pos hgt] at h
            simp at h
          · omega
        · intro hle
          simp only [Bool.false_eq_true, if_false] at hle
          refine ⟨Int.ofNat i.value, s₂, ?_⟩
          rw [hrun2, if_neg (by omega)]
      · intro _ hle
        refine ⟨s₂, ?_⟩
        rw [hrun2, if_neg (by omega)]
      · intro habs
        simp at habs
      · intro habs
        simp at habs
      · intro _ hgt
        refine ⟨sp, s₂, ?_⟩
        rw [hrun2, if_pos (by omega)]
      · intro habs
        simp at habs
    | true =>
      have hrun2 : intFromIdn MAX s =
          (if i.value > MAX + 1 then RRes.fatal ⟨sp, intRangeLowMsg MAX⟩ s₂
           else if i.value > MAX then RRes.ok (-(Int.ofNat (MAX + 1))) s₂
           else RRes.ok (-(Int.ofNat i.value)) s₂) := hrun
      refine ⟨?_, ?_, ?_, ?_, ?_, ?_⟩
      · constructor
        · rintro ⟨v, s', h⟩
          rw [hrun2] at h
          simp only [if_pos]
          by_cases hgt : i.value > MAX + 1
          · rw [if_pos hgt] at h
            simp at h
          · omega
        · intro hle
          simp only [if_pos] at hle
          by_cases hgt : i.value > MAX
          · refine ⟨-(Int.ofNat (MAX + 1)), s₂, ?_⟩
            rw [hrun2, if_neg (by omega), if_pos (by omega)]
          · refine ⟨-(Int.ofNat i.value), s₂, ?_⟩
            rw [hrun2, if_neg (by omega), if_neg (by omega)]
      · intro habs
        simp at habs
      · intro _ heq
        refine ⟨s₂, ?_⟩
        rw [hrun2, if_neg (by omega), if_pos (by omega)]
      · intro _ hle
        refine ⟨s₂, ?_⟩
        rw [hrun2, if_neg (by omega), if_neg (by omega)]
      · intro habs
        simp at habs
      · intro _ hgt
        refine ⟨sp, s₂, ?_⟩
        rw [hrun2, if_pos (by omega)]
  · refine ⟨?_, ?_, ?_, ?_⟩ <;>
      simp [parse, lex, lexRun, lexLoop, readSymbolToken, readNumber, readNumberDigits,
        readNumberDecimal, takeDigits, digitsToNat, readChar, readCharExact, msg, describeChar,
        Pos.zero, Pos.advance, isSymbolChar, isWordStart, peekStr, peekNumberDecimal,
        peekCharExact, Span.ofPos, Char.utf8Size, Toks.new, Toks.updateSpan, Toks.view,
        Toks.peek, Toks.next, Toks.isEmpty, Toks.pop, Toks.truncateBefore, Toks.drain,
        readToEnd, finish, skip, Element.tryFromIdn, Element.fromIdn, Group.tryFromTokens,
        intFromIdn, tryReadSymbol, symbolFromIdn, readElementAs, integerFromIdn, numberFromIdn,
        describeElement, Element.span, Token.span, Number.span, Span.union, Pos.min, Pos.max]

/-- Witness for C4: `-128` as sign symbol plus magnitude 128 at `MAX = 127`
decodes to `i8::MIN = -128`. -/
theorem int_decode_range_boundaries_witness :
    ∃ s', intFromIdn 127
      ⟨Toks.new ⟨Pos.zero, Pos.zero⟩
        [Token.symbol ⟨⟨Pos.zero, Pos.zero⟩, '-'⟩,
         Token.number (.integer ⟨⟨Pos.zero, Pos.zero⟩, 128⟩)] 0, []⟩ =
      .ok (-(Int.ofNat 128)) s' := by
  refine ((int_decode_range_boundaries.1 127
    ⟨Toks.new ⟨Pos.zero, Pos.zero⟩
      [Token.symbol ⟨⟨Pos.zero, Pos.zero⟩, '-'⟩,
       Token.number (.integer ⟨⟨Pos.zero, Pos.zero⟩, 128⟩)] 0, []⟩
    (some ⟨⟨Pos.zero, Pos.zero⟩, '-'⟩) ⟨⟨Pos.zero, Pos.zero⟩, 128⟩ [] true
    (by decide) (by decide) (by intro sy h; cases h; right; rfl)).2.2.1 rfl rfl)

/-! ### C2: declaration disambiguation -/

/-- The lookahead decision of `Declaration::from_idn` as a function of the
window's tokens: the source tests `Token::Number(Number::Integer(_)) |
Token::StringLiteral(_) | Token::Word(_)` followed by the symbol `=`. -/
def isPropertyStart (ts : List Token) : Bool :=
  match ts with
  | tok :: rest =>
    (match tok with
     | .number (.integer _) | .stringLiteral _ | .word _ =>
       (match rest.head? with
        | some (.symbol sy) => sy.value == '='
        | _ => false)
     | _ => false)
  | [] => false

theorem Toks.next_fst (t : Toks) : (t.next).1 = t.view.head? := by
  unfold Toks.next
  rw [Toks.peek_eq_head]
  cases t.view.head? <;> rfl

theorem toksFromIdn_ok_value {s : RState} {t : Toks} {sx : RState}
    (h : toksFromIdn s = .ok t sx) : t = s.toks := by
  unfold toksFromIdn at h
  cases hs : skipAll s with
  | panic => rw [hs] at h; simp at h
  | ok s' =>
    rw [hs] at h
    simp only [RRes.ok.injEq] at h
    exact h.1.symm

theorem readToEnd_ok_value {d : RState → RRes α} {s : RState} {a : α} {s' : RState}
    (h : readToEnd d s = .ok a s') : ∃ s₀, d s = .ok a s₀ := by
  unfold readToEnd at h
  cases hd : d s with
  | panic => rw [hd] at h; simp at h
  | fatal e s₀ =>
    rw [hd] at h
    simp only [] at h
    split at h
    · cases hf : finish s₀ with
      | panic => rw [hf] at h; simp at h
      | ok s'' => rw [hf] at h; simp at h
    · simp at h
  | ok a' s₀ =>
    rw [hd] at h
    simp only [] at h
    split at h
    · cases hf : finish s₀ with
      | panic => rw [hf] at h; simp at h
      | ok s'' =>
        rw [hf] at h
        simp only [RRes.ok.injEq] at h
        exact ⟨s₀, by rw [h.1]⟩
    · simp only [RRes.ok.injEq] at h
      exact ⟨s₀, by rw [h.1]⟩

theorem readerFromIdn_ok_value {s : RState} {t : Toks} {s' : RState}
    (h : readerFromIdn s = .ok t s') : t = s.toks := by
  obtain ⟨s₀, h₀⟩ := readToEnd_ok_value h
  exact toksFromIdn_ok_value h₀

theorem declFromIdn_branch (s : RState) (hne : s.toks.isEmpty = false) :
    declFromIdn s =
      (if isPropertyStart s.toks.view then
        (match readToEnd propertyFromIdn s with
         | .panic => .panic
         | .fatal e s' => .fatal e s'
         | .ok (k, eq, v) s' => .ok (.property k eq v) s')
       else
        (match readToEnd readerFromIdn s with
         | .panic => .panic
         | .fatal e s' => .fatal e s'
         | .ok t s' => .ok (.item t) s')) := by
  obtain ⟨x, xs, hv⟩ : ∃ x xs, s.toks.view = x :: xs := by
    unfold Toks.isEmpty at hne
    cases hvv : s.toks.view with
    | nil => rw [hvv] at hne; simp at hne
    | cons x xs => exact ⟨x, xs, rfl⟩
  have hfst : (s.toks.next).1 = some x := (Toks.next_fields hv).1
  have hsnd : (((s.toks.next).2).next).1 = xs.head? := by
    rw [Toks.next_fst, Toks.next_view hv]
  unfold declFromIdn
  rw [if_neg (by rw [hne]; simp)]
  rw [hfst]
  simp only []
  rw [hsnd, hv]
  cases x with
  | delimiter d => simp [isPropertyStart]
  | symbol sym => simp [isPropertyStart]
  | number n =>
    cases n with
    | float f => simp [isPropertyStart]
    | integer i =>
      cases hy : xs.head? with
      | none => simp [isPropertyStart, hy]
      | some y =>
        cases y with
        | symbol sy => cases hb : sy.value == '=' <;> simp [isPropertyStart, hy, hb]
        | delimiter dd => simp [isPropertyStart, hy]
        | number m => simp [isPropertyStart, hy]
        | stringLiteral q => simp [isPropertyStart, hy]
        | word q => simp [isPropertyStart, hy]
  | stringLiteral sl =>
    cases hy : xs.head? with
    | none => simp [isPropertyStart, hy]
    | some y =>
      cases y with
      | symbol sy => cases hb : sy.value == '=' <;> simp [isPropertyStart, hy, hb]
      | delimiter dd => simp [isPropertyStart, hy]
      | number m => simp [isPropertyStart, hy]
      | stringLiteral q => simp [isPropertyStart, hy]
      | word q => simp [isPropertyStart, hy]
  | word w =>
    cases hy : xs.head? with
    | none => simp [isPropertyStart, hy]
    | some y =>
      cases y with
      | symbol sy => cases hb : sy.value == '=' <;> simp [isPropertyStart, hy, hb]
      | delimiter dd => simp [isPropertyStart, hy]
      | number m => simp [isPropertyStart, hy]
      | stringLiteral q => simp [isPropertyStart, hy]
      | word q => simp [isPropertyStart, hy]

/-- C2 (amended): for a non-empty window, reading a `Declaration` yields a
`Property` exactly when the first token is an *Integer number*, string
literal or word and the second token is the symbol `=` (a *floating-point*
first token always yields an `Item`, unlike the claim's "Number"); in every
other case it yields an `Item`, and a failed lookahead consumes nothing —
the resulting `Item` wraps the full original window. -/
theorem declaration_property_disambiguation (s : RState) (d : Declaration)
    (s' : RState) (hne : s.toks.isEmpty = false) (hr : declFromIdn s = .ok d s') :
    ((∃ k eq v, d = .property k eq v) ↔ isPropertyStart s.toks.view = true) ∧
    (∀ t, d = .item t → t = s.toks) := by
  rw [declFromIdn_branch s hne] at hr
  by_cases hp : isPropertyStart s.toks.view = true
  · rw [if_pos hp] at hr
    cases hq : readToEnd propertyFromIdn s with
    | panic => rw [hq] at hr; simp at hr
    | fatal e sx => rw [hq] at hr; simp at hr
    | ok kev sx =>
      obtain ⟨k, eq, v⟩ := kev
      rw [hq] at hr
      simp only [RRes.ok.injEq] at hr
      obtain ⟨hd, -⟩ := hr
      subst hd
      refine ⟨⟨fun _ => hp, fun _ => ⟨k, eq, v, rfl⟩⟩, ?_⟩
      intro t ht
      simp at ht
  · rw [if_neg hp] at hr
    cases hq : readToEnd readerFromIdn s with
    | panic => rw [hq] at hr; simp at hr
    | fatal e sx => rw [hq] at hr; simp at hr
    | ok t sx =>
      rw [hq] at hr
      simp only [RRes.ok.injEq] at hr
      obtain ⟨hd, -⟩ := hr
      subst hd
      constructor
      · constructor
        · rintro ⟨k, eq, v, habs⟩
          simp at habs
        · intro hcond
          exact absurd hcond hp
      · intro t' ht
        simp only [Declaration.item.injEq] at ht
        subst ht
        obtain ⟨s₀, h₀⟩ := readToEnd_ok_value hq
        exact readerFromIdn_ok_value h₀

/-- Counterexample to C2 as stated: with a *floating-point* number as first
token and `=` as second token, reading a `Declaration` yields an `Item`, not
a `Property`. -/
theorem declaration_property_disambiguation_counterexample :
    (match (Toks.new ⟨Pos.zero, Pos.zero⟩
        [Token.number (.float ⟨⟨Pos.zero, Pos.zero⟩, ['3']⟩),
         Token.symbol ⟨⟨Pos.zero, Pos.zero⟩, '='⟩,
         Token.word ⟨⟨Pos.zero, Pos.zero⟩, ['x']⟩] 0).view.head? with
      | some (Token.number _) => true
      | _ => false) = true ∧
    (match (Toks.new ⟨Pos.zero, Pos.zero⟩
        [Token.number (.float ⟨⟨Pos.zero, Pos.zero⟩, ['3']⟩),
         Token.symbol ⟨⟨Pos.zero, Pos.zero⟩, '='⟩,
         Token.word ⟨⟨Pos.zero, Pos.zero⟩, ['x']⟩] 0).view with
      | _ :: Token.symbol sy :: _ => sy.value == '='
      | _ => false) = true ∧
    (match declFromIdn ⟨Toks.new ⟨Pos.zero, Pos.zero⟩
        [Token.number (.float ⟨⟨Pos.zero, Pos.zero⟩, ['3']⟩),
         Token.symbol ⟨⟨Pos.zero, Pos.zero⟩, '='⟩,
         Token.word ⟨⟨Pos.zero, Pos.zero⟩, ['x']⟩] 0, []⟩ with
      | .ok (.item _) _ => true
      | _ => false) = true := by
  refine ⟨by decide, by decide, ?_⟩
  simp [declFromIdn, readerFromIdn, toksFromIdn, skipAll, readToEnd, finish,
    Element.tryFromIdn, Element.fromIdn, Group.tryFromTokens, Toks.new, Toks.updateSpan,
    Toks.view, Toks.peek, Toks.next, Toks.isEmpty, Toks.drain, Span.ofPos, Pos.zero,
    describeElement, Element.span, Token.span, Number.span, Span.union, Pos.min, Pos.max, msg]

/-- Witness for C2 (amended) at a concrete window: `a = x` is read as a
property. -/
theorem declaration_property_disambiguation_witness :
    (match declFromIdn ⟨Toks.new ⟨Pos.zero, Pos.zero⟩
        [Token.word ⟨⟨Pos.zero, Pos.zero⟩, ['a']⟩,
         Token.symbol ⟨⟨Pos.zero, Pos.zero⟩, '='⟩,
         Token.word ⟨⟨Pos.zero, Pos.zero⟩, ['x']⟩] 0, []⟩ with
      | .ok (.property _ _ _) _ => True
      | _ => False) := by
  cases hr : declFromIdn ⟨Toks.new ⟨Pos.zero, Pos.zero⟩
      [Token.word ⟨⟨Pos.zero, Pos.zero⟩, ['a']⟩,
       Token.symbol ⟨⟨Pos.zero, Pos.zero⟩, '='⟩,
       Token.word ⟨⟨Pos.zero, Pos.zero⟩, ['x']⟩] 0, []⟩ with
  | ok d s' =>
    obtain ⟨k, eq, v, hd⟩ :=
      (declaration_property_disambiguation _ d s' (by decide) hr).1.mpr (by decide)
    subst hd
    trivial
  | fatal e s' =>
    simp [declFromIdn, propertyFromIdn, readerFromIdn, toksFromIdn, skipAll, readToEnd,
      finish, skip, readSymbol, Element.tryFromIdn, Element.fromIdn, Group.tryFromTokens,
      Toks.new, Toks.updateSpan, Toks.view, Toks.peek, Toks.next, Toks.isEmpty, Toks.drain,
      Toks.truncateBefore, Toks.pop, Span.ofPos, Pos.zero, describeElement, Element.span,
      Token.span, Number.span, Span.union, Pos.min, Pos.max, msg] at hr
  | panic =>
    simp [declFromIdn, propertyFromIdn, readerFromIdn, toksFromIdn, skipAll, readToEnd,
      finish, skip, readSymbol, Element.tryFromIdn, Element.fromIdn, Group.tryFromTokens,
      Toks.new, Toks.updateSpan, Toks.view, Toks.peek, Toks.next, Toks.isEmpty, Toks.drain,
      Toks.truncateBefore, Toks.pop, Span.ofPos, Pos.zero, describeElement, Element.span,
      Token.span, Number.span, Span.union, Pos.min, Pos.max, msg] at hr


/-! ### C7: duplicate keys in maps versus block-style records -/

/-- The span of the `i`-th single-character token of the duplicate-key
example stream. -/
def dupSp (i : Nat) : Span := ⟨⟨i, 1, i + 1⟩, ⟨i + 1, 1, i + 2⟩⟩

/-- The token stream of `{a = 1,a = 2}`: a `{`-group holding two `key =
value` items with the same key `a`. -/
def dupToks : List Token :=
  [Token.delimiter ⟨dupSp 0, '{'⟩,
   Token.word ⟨dupSp 1, ['a']⟩, Token.symbol ⟨dupSp 2, '='⟩,
   Token.number (.integer ⟨dupSp 3, 1⟩),
   Token.symbol ⟨dupSp 4, ','⟩,
   Token.word ⟨dupSp 5, ['a']⟩, Token.symbol ⟨dupSp 6, '='⟩,
   Token.number (.integer ⟨dupSp 7, 2⟩),
   Token.delimiter ⟨dupSp 8, '}'⟩]

theorem dupStageGroup : readGroup '{' ⟨Toks.new (dupSp 0) dupToks 0, []⟩ =
    .ok ⟨⟨dupSp 0, '{'⟩, ⟨⟨⟨1,1,2⟩,⟨8,1,9⟩⟩, dupToks, 0, 1, 8⟩, ⟨dupSp 8, '}'⟩⟩
      ⟨⟨⟨⟨8,1,9⟩,⟨8,1,9⟩⟩, dupToks, 0, 9, 9⟩, []⟩ := by
  simp [dupToks, dupSp, Toks.new, Toks.updateSpan, Toks.view, Toks.peek, Toks.next,
    Toks.isEmpty, Toks.pop, Toks.truncateBefore, Element.tryFromIdn, Element.fromIdn,
    Group.tryFromTokens, groupScan, readGroup, Element.span, Token.span, Number.span,
    Span.union, Span.lastLine, Span.ofPos, Pos.min, Pos.max, Delimiter.isOpen,
    Delimiter.revChar, elementOfToken, describeChar, describeElement]

theorem dupStageItem1 : listNext ⟨⟨⟨⟨1,1,2⟩,⟨8,1,9⟩⟩, dupToks, 0, 1, 8⟩, []⟩ =
    .ok (some (⟨⟨⟨1,1,2⟩,⟨4,1,5⟩⟩, dupToks, 0, 1, 4⟩,
      ⟨⟨⟨⟨5,1,6⟩,⟨8,1,9⟩⟩, dupToks, 0, 5, 8⟩, []⟩)) := by
  simp [dupToks, dupSp, Toks.updateSpan, Toks.view, Toks.peek, Toks.next,
    Toks.isEmpty, Toks.pop, Toks.truncateBefore, Element.tryFromIdn, Element.fromIdn,
    Group.tryFromTokens, groupScan, Element.span, Token.span, Number.span,
    Span.union, Span.lastLine, Span.ofPos, Pos.min, Pos.max, Delimiter.isOpen,
    Delimiter.revChar, elementOfToken, listNext, listNextLoop]

theorem dupStageKey1 : strFromIdn ⟨⟨⟨⟨1,1,2⟩,⟨4,1,5⟩⟩, dupToks, 0, 1, 4⟩, []⟩ =
    .ok ['a'] ⟨⟨⟨⟨2,1,3⟩,⟨4,1,5⟩⟩, dupToks, 0, 2, 4⟩, []⟩ := by
  simp [dupToks, dupSp, Toks.updateSpan, Toks.view, Toks.peek, Toks.next,
    Toks.isEmpty, Element.tryFromIdn, Element.fromIdn,
    Group.tryFromTokens, groupScan, Element.span, Token.span, Number.span,
    Span.union, Span.ofPos, Pos.min, Pos.max, Delimiter.isOpen,
    elementOfToken, strFromIdn]

theorem dupStageEq1 : readSymbol ['='] ⟨⟨⟨⟨2,1,3⟩,⟨4,1,5⟩⟩, dupToks, 0, 2, 4⟩, []⟩ =
    .ok ⟨dupSp 2, '='⟩ ⟨⟨⟨⟨3,1,4⟩,⟨4,1,5⟩⟩, dupToks, 0, 3, 4⟩, []⟩ := by
  simp [dupToks, dupSp, Toks.updateSpan, Toks.view, Toks.peek, Toks.next,
    Toks.isEmpty, Element.tryFromIdn, Element.fromIdn,
    Group.tryFromTokens, groupScan, Element.span, Token.span, Number.span,
    Span.union, Span.ofPos, Pos.min, Pos.max, Delimiter.isOpen,
    elementOfToken, readSymbol, symbolFromIdn, readElementAs, msg, describeChar]

theorem dupStageVal1 :
    readToEnd (intFromIdn 9223372036854775807)
        ⟨⟨⟨⟨3,1,4⟩,⟨4,1,5⟩⟩, dupToks, 0, 3, 4⟩, []⟩ =
      .ok (1 : Int) ⟨⟨⟨⟨3,1,4⟩,⟨3,1,4⟩⟩, dupToks, 0, 4, 4⟩, []⟩ := by
  simp [dupToks, dupSp, Toks.updateSpan, Toks.view, Toks.peek, Toks.next,
    Toks.isEmpty, Toks.drain, Element.tryFromIdn, Element.fromIdn,
    Group.tryFromTokens, groupScan, Element.span, Token.span, Number.span,
    Span.union, Span.ofPos, Pos.min, Pos.max, Delimiter.isOpen,
    elementOfToken, readToEnd, finish, intFromIdn, tryReadSymbol, integerFromIdn,
    numberFromIdn, readElementAs, msg, describeChar]

theorem dupStageItem2 : listNext ⟨⟨⟨⟨5,1,6⟩,⟨8,1,9⟩⟩, dupToks, 0, 5, 8⟩, []⟩ =
    .ok (some (⟨⟨⟨5,1,6⟩,⟨8,1,9⟩⟩, dupToks, 0, 5, 8⟩,
      ⟨⟨⟨⟨7,1,8⟩,⟨7,1,8⟩⟩, dupToks, 0, 8, 8⟩, []⟩)) := by
  simp [dupToks, dupSp, Toks.updateSpan, Toks.view, Toks.peek, Toks.next,
    Toks.isEmpty, Toks.pop, Toks.truncateBefore, Element.tryFromIdn, Element.fromIdn,
    Group.tryFromTokens, groupScan, Element.span, Token.span, Number.span,
    Span.union, Span.lastLine, Span.ofPos, Pos.min, Pos.max, Delimiter.isOpen,
    Delimiter.revChar, elementOfToken, listNext, listNextLoop]

theorem dupStageKey2 : strFromIdn ⟨⟨⟨⟨5,1,6⟩,⟨8,1,9⟩⟩, dupToks, 0, 5, 8⟩, []⟩ =
    .ok ['a'] ⟨⟨⟨⟨6,1,7⟩,⟨8,1,9⟩⟩, dupToks, 0, 6, 8⟩, []⟩ := by
  simp [dupToks, dupSp, Toks.updateSpan, Toks.view, Toks.peek, Toks.next,
    Toks.isEmpty, Element.tryFromIdn, Element.fromIdn,
    Group.tryFromTokens, groupScan, Element.span, Token.span, Number.span,
    Span.union, Span.ofPos, Pos.min, Pos.max, Delimiter.isOpen,
    elementOfToken, strFromIdn]

theorem dupStageEq2 : readSymbol ['='] ⟨⟨⟨⟨6,1,7⟩,⟨8,1,9⟩⟩, dupToks, 0, 6, 8⟩, []⟩ =
    .ok ⟨dupSp 6, '='⟩ ⟨⟨⟨⟨7,1,8⟩,⟨8,1,9⟩⟩, dupToks, 0, 7, 8⟩, []⟩ := by
  simp [dupToks, dupSp, Toks.updateSpan, Toks.view, Toks.peek, Toks.next,
    Toks.isEmpty, Element.tryFromIdn, Element.fromIdn,
    Group.tryFromTokens, groupScan, Element.span, Token.span, Number.span,
    Span.union, Span.ofPos, Pos.min, Pos.max, Delimiter.isOpen,
    elementOfToken, readSymbol, symbolFromIdn, readElementAs, msg, describeChar]

theorem dupStageVal2 :
    readToEnd (intFromIdn 9223372036854775807)
        ⟨⟨⟨⟨7,1,8⟩,⟨8,1,9⟩⟩, dupToks, 0, 7, 8⟩, []⟩ =
      .ok (2 : Int) ⟨⟨⟨⟨7,1,8⟩,⟨7,1,8⟩⟩, dupToks, 0, 8, 8⟩, []⟩ := by
  simp [dupToks, dupSp, Toks.updateSpan, Toks.view, Toks.peek, Toks.next,
    Toks.isEmpty, Toks.drain, Element.tryFromIdn, Element.fromIdn,
    Group.tryFromTokens, groupScan, Element.span, Token.span, Number.span,
    Span.union, Span.ofPos, Pos.min, Pos.max, Delimiter.isOpen,
    elementOfToken, readToEnd, finish, intFromIdn, tryReadSymbol, integerFromIdn,
    numberFromIdn, readElementAs, msg, describeChar]

theorem dupStageDone : ∀ es : ErrorList,
    listNext ⟨⟨⟨⟨7,1,8⟩,⟨7,1,8⟩⟩, dupToks, 0, 8, 8⟩, es⟩ = .ok none := by
  intro es
  simp [dupToks, Toks.isEmpty, Toks.view, listNext]

theorem dupStagePeek1 :
    readerPeekStr ⟨⟨⟨⟨1,1,2⟩,⟨4,1,5⟩⟩, dupToks, 0, 1, 4⟩, []⟩ = (some ['a'], dupSp 1) := by
  simp [dupToks, dupSp, Toks.peek, Toks.view, readerPeekStr]

theorem dupStageSkip1 :
    skip ⟨⟨⟨⟨1,1,2⟩,⟨4,1,5⟩⟩, dupToks, 0, 1, 4⟩, []⟩ =
      .ok (true, ⟨⟨⟨⟨2,1,3⟩,⟨4,1,5⟩⟩, dupToks, 0, 2, 4⟩, []⟩) := by
  simp [dupToks, dupSp, Toks.updateSpan, Toks.view, Toks.peek, Toks.next,
    Toks.isEmpty, Element.tryFromIdn, Element.fromIdn,
    Group.tryFromTokens, groupScan, Element.span, Token.span, Number.span,
    Span.union, Span.ofPos, Pos.min, Pos.max, Delimiter.isOpen,
    elementOfToken, skip]

theorem dupStagePeek2 :
    readerPeekStr ⟨⟨⟨⟨5,1,6⟩,⟨8,1,9⟩⟩, dupToks, 0, 5, 8⟩, []⟩ = (some ['a'], dupSp 5) := by
  simp [dupToks, dupSp, Toks.peek, Toks.view, readerPeekStr]

theorem dupStageSkip2 :
    skip ⟨⟨⟨⟨5,1,6⟩,⟨8,1,9⟩⟩, dupToks, 0, 5, 8⟩, []⟩ =
      .ok (true, ⟨⟨⟨⟨6,1,7⟩,⟨8,1,9⟩⟩, dupToks, 0, 6, 8⟩, []⟩) := by
  simp [dupToks, dupSp, Toks.updateSpan, Toks.view, Toks.peek, Toks.next,
    Toks.isEmpty, Element.tryFromIdn, Element.fromIdn,
    Group.tryFromTokens, groupScan, Element.span, Token.span, Number.span,
    Span.union, Span.ofPos, Pos.min, Pos.max, Delimiter.isOpen,
    elementOfToken, skip]

/-- C7: in `HashMap::from_idn` every list item decodes as a key, then a
mandatory `=` symbol, then the item's remaining tokens as the value, and the
binding is inserted by plain overwrite with no error recorded; on the token
stream of `{a = 1,a = 2}` the map path yields `a = 2` with an empty error
list, while the block-style record path on the same stream keeps the first
value `1` and records one non-fatal `Duplicate a property.` error at the
second key's span. -/
theorem map_duplicate_key_overwrites :
    (∀ (κ ν : Type) [inst : DecidableEq κ] (kd : RState → RRes κ)
       (vd : RState → RRes ν) (s s' si sj sk : RState) (item : Toks) (k : κ)
       (u : Symbol) (v : ν) (m : κ → Option ν),
       listNext s = .ok (some (item, s')) →
       kd ⟨item, s'.errors⟩ = .ok k si →
       readSymbol ['='] si = .ok u sj →
       readToEnd vd sj = .ok v sk →
       mapLoop kd vd s m =
         mapLoop kd vd ⟨s'.toks, sk.errors⟩ (fun x => if x = k then some v else m x) ∧
       (fun x => if x = k then some v else m x) k = some v) ∧
    (match hashMapFromIdn strFromIdn (intFromIdn 9223372036854775807)
        ⟨Toks.new (dupSp 0) dupToks 0, []⟩ with
      | .ok m s => m ['a'] = some (2 : Int) ∧ s.errors = []
      | _ => False) ∧
    (match recordBlockProperty ['a'] (intFromIdn 9223372036854775807)
        ⟨Toks.new (dupSp 0) dupToks 0, []⟩ with
      | .ok v s => v = (1 : Int) ∧
          s.errors = [⟨dupSp 5, msg ("Duplicate a property.")⟩]
      | _ => False) := by
  refine ⟨?_, ?_, ?_⟩
  · intro κ ν inst kd vd s s' si sj sk item k u v m h1 h2 h3 h4
    exact ⟨mapLoop_cons h1 h2 h3 h4, by simp⟩
  · simp only [hashMapFromIdn, dupStageGroup]
    rw [mapLoop_cons dupStageItem1 dupStageKey1 dupStageEq1 dupStageVal1,
      mapLoop_cons dupStageItem2 dupStageKey2 dupStageEq2 dupStageVal2,
      mapLoop_nil (dupStageDone _)]
    simp
  · simp only [recordBlockProperty, dupStageGroup]
    rw [recordBlockLoop_set dupStageItem1 dupStagePeek1 dupStageSkip1 dupStageEq1 dupStageVal1,
      recordBlockLoop_dup dupStageItem2 dupStagePeek2 dupStageSkip2 dupStageEq2,
      recordBlockLoop_nil (dupStageDone _)]
    simp
    decide

theorem map_duplicate_key_overwrites_witness :
    mapLoop strFromIdn (intFromIdn 9223372036854775807)
        ⟨⟨⟨⟨1,1,2⟩,⟨8,1,9⟩⟩, dupToks, 0, 1, 8⟩, []⟩ (fun _ => none) =
      mapLoop strFromIdn (intFromIdn 9223372036854775807)
        ⟨⟨⟨⟨5,1,6⟩,⟨8,1,9⟩⟩, dupToks, 0, 5, 8⟩, []⟩
        (fun x => if x = ['a'] then some (1 : Int) else none) ∧
    (fun x => if x = ['a'] then some (1 : Int) else none) ['a'] = some (1 : Int) :=
  map_duplicate_key_overwrites.1 (List Char) Int strFromIdn
    (intFromIdn 9223372036854775807) _ _ _ _ _ _ _ _ _ (fun _ => none)
    dupStageItem1 dupStageKey1 dupStageEq1 dupStageVal1

/-! ### C5: read_to_end decode/finish ordering -/

/-- C5: `read_to_end` decodes and then calls `finish()` exactly when the
shared error list's length is unchanged by the decode, in both the ok and
the fatal case, so a decode that emitted errors never additionally produces
a spurious trailing-content error; `finish()` itself leaves the token window
empty regardless and appends at most one non-fatal `Unexpected ...` error
(none when the window was already empty). -/
theorem read_to_end_calls_finish_iff_no_new_errors :
    (∀ (α : Type) (d : RState → RRes α) (s : RState) (a : α) (s' : RState),
        d s = .ok a s' →
        (s'.errors.length = s.errors.length →
          readToEnd d s =
            (match finish s' with | .panic => .panic | .ok s'' => .ok a s'')) ∧
        (s'.errors.length ≠ s.errors.length → readToEnd d s = .ok a s')) ∧
    (∀ (α : Type) (d : RState → RRes α) (s : RState) (e : Error) (s' : RState),
        d s = .fatal e s' →
        (s'.errors.length = s.errors.length →
          readToEnd d s =
            (match finish s' with | .panic => .panic | .ok s'' => .fatal e s'')) ∧
        (s'.errors.length ≠ s.errors.length → readToEnd d s = .fatal e s')) ∧
    (∀ (s s'' : RState), finish s = .ok s'' →
        (s''.toks).view = [] ∧
        (s''.errors = s.errors ∨
          ∃ el sx, Element.tryFromIdn s = .ok (some (el, sx)) ∧
            s''.errors = s.errors ++
              [⟨el.span, msg ("Unexpected ") ++ describeElement el ++ msg (".")⟩])) := by
  refine ⟨?_, ?_, ?_⟩
  · intro α d s a s' hd
    constructor
    · intro hlen
      unfold readToEnd
      rw [hd]
      simp only []
      rw [if_pos hlen]
    · intro hlen
      unfold readToEnd
      rw [hd]
      simp only []
      rw [if_neg hlen]
  · intro α d s e s' hd
    constructor
    · intro hlen
      unfold readToEnd
      rw [hd]
      simp only []
      rw [if_pos hlen]
    · intro hlen
      unfold readToEnd
      rw [hd]
      simp only []
      rw [if_neg hlen]
  · intro s s'' h
    unfold finish at h
    cases ht : Element.tryFromIdn s with
    | panic =>
      rw [ht] at h
      simp at h
    | ok o =>
      rw [ht] at h
      cases o with
      | none =>
        simp only [PRes.ok.injEq] at h
        subst h
        exact ⟨Toks.drain_view _, .inl rfl⟩
      | some p =>
        obtain ⟨el, sx⟩ := p
        simp only [PRes.ok.injEq] at h
        subst h
        refine ⟨Toks.drain_view _, .inr ⟨el, sx, rfl, ?_⟩⟩
        rw [Element.tryFromIdn_errors ht]

theorem read_to_end_calls_finish_iff_no_new_errors_witness :
    ((⟨⟨⟨0,1,1⟩,⟨0,1,1⟩⟩,
        [Token.number (.integer ⟨⟨⟨0,1,1⟩,⟨1,1,2⟩⟩, 1⟩)], 0, 1, 1⟩ : Toks)).view = [] ∧
    (([⟨⟨⟨0,1,1⟩,⟨1,1,2⟩⟩, msg ("Unexpected integer.")⟩] : ErrorList) = ([] : ErrorList) ∨
      ∃ el sx, Element.tryFromIdn
          ⟨⟨⟨⟨0,1,1⟩,⟨1,1,2⟩⟩,
            [Token.number (.integer ⟨⟨⟨0,1,1⟩,⟨1,1,2⟩⟩, 1⟩)], 0, 0, 1⟩, []⟩ =
          .ok (some (el, sx)) ∧
        ([⟨⟨⟨0,1,1⟩,⟨1,1,2⟩⟩, msg ("Unexpected integer.")⟩] : ErrorList) =
          [] ++ [⟨el.span, msg ("Unexpected ") ++ describeElement el ++ msg (".")⟩]) :=
  read_to_end_calls_finish_iff_no_new_errors.2.2
    ⟨⟨⟨⟨0,1,1⟩,⟨1,1,2⟩⟩,
      [Token.number (.integer ⟨⟨⟨0,1,1⟩,⟨1,1,2⟩⟩, 1⟩)], 0, 0, 1⟩, []⟩
    ⟨⟨⟨⟨0,1,1⟩,⟨0,1,1⟩⟩,
      [Token.number (.integer ⟨⟨⟨0,1,1⟩,⟨1,1,2⟩⟩, 1⟩)], 0, 1, 1⟩,
      [⟨⟨⟨0,1,1⟩,⟨1,1,2⟩⟩, msg ("Unexpected integer.")⟩]⟩
    (by simp [finish, Element.tryFromIdn, Element.fromIdn, Group.tryFromTokens,
      groupScan, Toks.updateSpan, Toks.view, Toks.peek, Toks.next, Toks.isEmpty,
      Toks.drain, Element.span, Token.span, Number.span, Span.union, Span.ofPos,
      elementOfToken, describeElement, msg])

/-! ### C3: unmatched-delimiter errors -/

/-- C3: when the scan loop finishes without a fatal error, `lex` appends one
non-fatal unmatched-delimiter error per entry still on the open-delimiter
stack and succeeds exactly when the total accumulated error count is zero;
each unmatched error carries the opening delimiter's span; the input `(a`,
whose only defect is one unclosed `(`, yields exactly one error, the
unmatched error at the opener's span. -/
theorem lex_unmatched_delimiter_errors :
    (∀ (input : List Char) (st : LexState),
       lexLoop input ⟨[], [], [], Pos.zero⟩ = (st, none) →
       lexRun input =
         (⟨st.tokens, [], st.errors ++ st.openDelims.map unmatchedError, st.pos⟩, none) ∧
       ((∃ t, lex input = .ok t) ↔ st.errors.length + st.openDelims.length = 0)) ∧
    (∀ d : Delimiter, unmatchedError d =
       ⟨d.span, msg ("Unmatched ") ++ describeChar d.value ++ msg (".")⟩) ∧
    (match lex (msg ("(a")) with
      | .error es => es = [⟨⟨⟨0,1,1⟩,⟨1,1,2⟩⟩, msg ("Unmatched (.")⟩]
      | _ => False) := by
  refine ⟨?_, fun d => rfl, ?_⟩
  · intro input st h
    have hrun : lexRun input =
        (⟨st.tokens, [], st.errors ++ st.openDelims.map unmatchedError, st.pos⟩, none) := by
      unfold lexRun
      rw [h]
    refine ⟨hrun, ?_⟩
    unfold lex
    rw [hrun]
    simp only []
    cases hlen : (st.errors ++ st.openDelims.map unmatchedError).length with
    | zero =>
      rw [List.length_append, List.length_map] at hlen
      simp only []
      constructor
      · intro _
        omega
      · intro _
        exact ⟨_, rfl⟩
    | succ n =>
      rw [List.length_append, List.length_map] at hlen
      simp only []
      constructor
      · intro hex
        obtain ⟨t, ht⟩ := hex
        simp at ht
      · intro hz
        omega
  · simp [msg, lex, lexRun, lexLoop, readDelimiter, readWordToken, takeWordContinue,
      isWordStart, isWordContinue, isSymbolChar, peekStr, peekNumberDecimal,
      peekCharExact, readChar, readCharExact, Pos.advance, Pos.zero, Char.utf8Size,
      Span.ofPos, Toks.new, unmatchedError, describeChar, Delimiter.isOpen,
      Delimiter.revChar, Delimiter.asRevChar, Token.span, Word.span]

theorem lex_unmatched_delimiter_errors_witness :
    lexRun (msg ("(a")) =
      (⟨[Token.delimiter ⟨⟨⟨0,1,1⟩,⟨1,1,2⟩⟩, '('⟩,
         Token.word ⟨⟨⟨1,1,2⟩,⟨2,1,3⟩⟩, ['a']⟩], [],
        [] ++ [⟨⟨⟨0,1,1⟩,⟨1,1,2⟩⟩, '('⟩].map unmatchedError, ⟨2,1,3⟩⟩, none) ∧
    ((∃ t, lex (msg ("(a")) = .ok t) ↔
      ([] : ErrorList).length + [(⟨⟨⟨0,1,1⟩,⟨1,1,2⟩⟩, '('⟩ : Delimiter)].length = 0) :=
  lex_unmatched_delimiter_errors.1 (msg ("(a"))
    ⟨[Token.delimiter ⟨⟨⟨0,1,1⟩,⟨1,1,2⟩⟩, '('⟩,
      Token.word ⟨⟨⟨1,1,2⟩,⟨2,1,3⟩⟩, ['a']⟩],
     [⟨⟨⟨0,1,1⟩,⟨1,1,2⟩⟩, '('⟩], [], ⟨2,1,3⟩⟩
    (by simp [msg, lexLoop, readDelimiter, readWordToken, takeWordContinue,
      isWordStart, isWordContinue, isSymbolChar, peekStr, peekNumberDecimal,
      peekCharExact, readChar, readCharExact, Pos.advance, Pos.zero, Char.utf8Size,
      Span.ofPos, Delimiter.isOpen, Delimiter.revChar, Delimiter.asRevChar,
      Token.span, Word.span])

/-! ### C8: bad string-escape recovery -/

/-- C8: an unknown escape inside a string literal records exactly one
non-fatal error at the escaped character's span, drops the escaped character
from the contents, and scanning continues; concretely, `"a\qb"` lexes to a
string token with contents `ab` and exactly one accumulated
`Unknown string escape q.` error, which is the only error the whole lex
reports. -/
theorem string_bad_escape_recovery :
    (∀ (delim e : Char) (rest : List Char) (pos : Pos) (contents : List Char)
       (errors : List Error),
       delim ≠ '\\' → e ≠ 'n' → e ≠ 'r' → e ≠ '\\' → e ≠ '\'' → e ≠ '"' →
       readStringBody delim ('\\' :: e :: rest) pos contents errors =
         readStringBody delim rest ((pos.advance '\\').advance e) contents
           (errors ++ [⟨⟨pos.advance '\\', (pos.advance '\\').advance e⟩,
             msg ("Unknown string escape ") ++ describeChar e ++ msg (".")⟩])) ∧
    readString (msg ("\"a\\qb\"")) Pos.zero [] =
      ([⟨⟨⟨3,1,4⟩,⟨4,1,5⟩⟩, msg ("Unknown string escape q.")⟩],
       .ok (.stringLiteral ⟨⟨⟨0,1,1⟩,⟨6,1,7⟩⟩, ['a','b']⟩, [], ⟨6,1,7⟩)) ∧
    lex (msg ("\"a\\qb\"")) =
      .error [⟨⟨⟨3,1,4⟩,⟨4,1,5⟩⟩, msg ("Unknown string escape q.")⟩] := by
  refine ⟨?_, ?_, ?_⟩
  · intro delim e rest pos contents errors hd he1 he2 he3 he4 he5
    rw [readStringBody]
    rw [if_neg (fun h => hd h.symm), if_pos rfl]
    have hesc : readStringEscape (e :: rest) (pos.advance '\\') contents errors =
        (rest, (pos.advance '\\').advance e, contents,
          errors ++ [⟨⟨pos.advance '\\', (pos.advance '\\').advance e⟩,
            msg ("Unknown string escape ") ++ describeChar e ++ msg (".")⟩]) := by
      simp only [readStringEscape]
      rw [if_neg he1, if_neg he2, if_neg (by simp [he3, he4, he5])]
    simp only [hesc]
  · simp [msg, readString, readStringBody, readStringEscape, readChar, readCharExact,
      Pos.advance, Pos.zero, Char.utf8Size, Span.ofPos, describeChar]
  · have hrs : readString ['\x22', 'a', '\\', 'q', 'b', '\x22'] ⟨0,1,1⟩ [] =
        ([⟨⟨⟨3,1,4⟩,⟨4,1,5⟩⟩, msg ("Unknown string escape q.")⟩],
         .ok (.stringLiteral ⟨⟨⟨0,1,1⟩,⟨6,1,7⟩⟩, ['a','b']⟩, [], ⟨6,1,7⟩)) := by
      simp [msg, readString, readStringBody, readStringEscape, readChar, readCharExact,
        Pos.advance, Char.utf8Size, Span.ofPos, describeChar]
    have hstep : lexLoop ['\x22', 'a', '\\', 'q', 'b', '\x22'] ⟨[], [], [], Pos.zero⟩ =
        (⟨[.stringLiteral ⟨⟨⟨0,1,1⟩,⟨6,1,7⟩⟩, ['a','b']⟩], [],
          [⟨⟨⟨3,1,4⟩,⟨4,1,5⟩⟩, msg ("Unknown string escape q.")⟩], ⟨6,1,7⟩⟩, none) := by
      rw [lexLoop]
      rw [if_neg (by decide), if_pos (by decide)]
      simp only [Pos.zero]
      split
      · rename_i errs e heq
        rw [hrs] at heq
        simp at heq
      · rename_i errs tk r p heq
        rw [hrs] at heq
        simp only [Prod.mk.injEq, Except.ok.injEq] at heq
        obtain ⟨h1, h2, h3, h4⟩ := heq
        subst h1
        subst h2
        subst h3
        subst h4
        rw [lexLoop]
        rfl
    have hmsg : msg ("\x22a\\qb\x22") = ['\x22', 'a', '\\', 'q', 'b', '\x22'] := by decide
    rw [hmsg]
    unfold lex lexRun
    rw [hstep]
    simp

theorem string_bad_escape_recovery_witness :
    readStringBody '\x22' ['\\', 'q'] Pos.zero [] [] =
      readStringBody '\x22' [] ((Pos.zero.advance '\\').advance 'q') []
        ([] ++ [⟨⟨Pos.zero.advance '\\', (Pos.zero.advance '\\').advance 'q'⟩,
          msg ("Unknown string escape ") ++ describeChar 'q' ++ msg (".")⟩]) :=
  string_bad_escape_recovery.1 '\x22' 'q' [] Pos.zero [] []
    (by decide) (by decide) (by decide) (by decide) (by decide) (by decide)

/-! ### C9: panic-freedom of element reads on lexed buffers

`scanDepth l n` runs the delimiter counter of `Group::try_from_tokens` over
a token list from depth `n`: `none` means a close delimiter underflowed the
counter, `some k` is the final depth.  `scanDepth l 0 = some 0` is the
balance property the lexer guarantees. -/

def scanDepth : List Token → Nat → Option Nat
  | [], n => some n
  | t :: ts, n =>
    match t with
    | .delimiter d =>
      if d.isOpen then scanDepth ts (n + 1)
      else
        match n with
        | 0 => none
        | m + 1 => scanDepth ts m
    | _ => scanDepth ts n

theorem groupScan_none {opened : Nat} {tokens contents : Toks} {openD : Delimiter}
    (h : tokens.peek = none) : groupScan opened tokens contents openD = .panic := by
  rw [groupScan]
  split
  · rfl
  · rename_i d heq
    rw [h] at heq
    simp at heq
  · rename_i tok hne heq
    rw [h] at heq
    simp at heq

theorem groupScan_delim {opened : Nat} {tokens contents : Toks} {openD d : Delimiter}
    (h : tokens.peek = some (.delimiter d)) :
    groupScan opened tokens contents openD =
      (if d.isOpen then groupScan (opened + 1) (tokens.next).2 contents openD
       else if opened = 1 then
         .ok (⟨openD, ((contents.truncateBefore (tokens.next).2).pop), d⟩, (tokens.next).2)
       else groupScan (opened - 1) (tokens.next).2 contents openD) := by
  rw [groupScan]
  split
  · rename_i heq
    rw [h] at heq
    simp at heq
  · rename_i d0 heq
    rw [h] at heq
    simp only [Option.some.injEq, Token.delimiter.injEq] at heq
    subst heq
    rfl
  · rename_i tok hne heq
    rw [h] at heq
    simp only [Option.some.injEq] at heq
    exact absurd heq.symm (hne d)

theorem groupScan_other {opened : Nat} {tokens contents : Toks} {openD : Delimiter}
    {tok : Token} (h : tokens.peek = some tok) (hnd : ∀ d, tok ≠ .delimiter d) :
    groupScan opened tokens contents openD =
      groupScan opened (tokens.next).2 contents openD := by
  rw [groupScan]
  split
  · rename_i heq
    rw [h] at heq
    simp at heq
  · rename_i d heq
    rw [h] at heq
    simp only [Option.some.injEq] at heq
    exact absurd heq (hnd d)
  · rfl

theorem groupScan_balanced_aux :
    ∀ (n : Nat) (opened : Nat) (tokens contents : Toks) (openD : Delimiter),
      tokens.size ≤ n → 1 ≤ opened → scanDepth tokens.view opened = some 0 →
      ∃ g t', groupScan opened tokens contents openD = .ok (g, t') ∧
        scanDepth t'.view 0 = some 0 := by
  intro n
  induction n with
  | zero =>
    intro opened tokens contents openD hn hop hbal
    cases hv : tokens.view with
    | nil =>
      rw [hv] at hbal
      simp only [scanDepth, Option.some.injEq] at hbal
      omega
    | cons x xs =>
      have hp : tokens.peek = some x := by rw [Toks.peek_eq_head, hv]; rfl
      have := Toks.peek_some_size hp
      omega
  | succ n ih =>
    intro opened tokens contents openD hn hop hbal
    cases hv : tokens.view with
    | nil =>
      rw [hv] at hbal
      simp only [scanDepth, Option.some.injEq] at hbal
      omega
    | cons x xs =>
      have hp : tokens.peek = some x := by rw [Toks.peek_eq_head, hv]; rfl
      have hxs : ((tokens.next).2).view = xs := Toks.next_view hv
      have hsz : (tokens.next).2.size < tokens.size := Toks.next_snd_size hp
      rw [hv] at hbal
      cases x with
      | delimiter d =>
        rw [groupScan_delim hp]
        simp only [scanDepth] at hbal
        cases hdo : d.isOpen with
        | true =>
          simp only [hdo, eq_self_iff_true, if_true] at hbal ⊢
          obtain ⟨g, t', hgs, hb⟩ :=
            ih (opened + 1) (tokens.next).2 contents openD (by omega) (by omega)
              (by rw [hxs]; exact hbal)
          exact ⟨g, t', hgs, hb⟩
        | false =>
          simp only [hdo, Bool.false_eq_true, if_false] at hbal ⊢
          cases opened with
          | zero => omega
          | succ m =>
            simp only [] at hbal
            cases m with
            | zero =>
              rw [if_pos rfl]
              exact ⟨_, _, rfl, by rw [hxs]; exact hbal⟩
            | succ k =>
              rw [if_neg (by omega)]
              obtain ⟨g, t', hgs, hb⟩ :=
                ih (k + 2 - 1) (tokens.next).2 contents openD (by omega) (by omega)
                  (by rw [hxs]; exact hbal)
              exact ⟨g, t', hgs, hb⟩
      | number x0 =>
        rw [groupScan_other hp (fun d h => Token.noConfusion h)]
        simp only [scanDepth] at hbal
        exact ih opened (tokens.next).2 contents openD (by omega) hop
          (by rw [hxs]; exact hbal)
      | stringLiteral x0 =>
        rw [groupScan_other hp (fun d h => Token.noConfusion h)]
        simp only [scanDepth] at hbal
        exact ih opened (tokens.next).2 contents openD (by omega) hop
          (by rw [hxs]; exact hbal)
      | symbol x0 =>
        rw [groupScan_other hp (fun d h => Token.noConfusion h)]
        simp only [scanDepth] at hbal
        exact ih opened (tokens.next).2 contents openD (by omega) hop
          (by rw [hxs]; exact hbal)
      | word x0 =>
        rw [groupScan_other hp (fun d h => Token.noConfusion h)]
        simp only [scanDepth] at hbal
        exact ih opened (tokens.next).2 contents openD (by omega) hop
          (by rw [hxs]; exact hbal)

theorem Element.fromIdn_balanced (s : RState) (hbal : scanDepth s.toks.view 0 = some 0) :
    Element.fromIdn s ≠ .panic ∧
    Group.tryFromTokens s.toks ≠ .panic ∧
    (∀ el s', Element.fromIdn s = .ok el s' → scanDepth s'.toks.view 0 = some 0) := by
  cases hv : s.toks.view with
  | nil =>
    have hp : s.toks.peek = none := by rw [Toks.peek_eq_head, hv]; rfl
    have htry : Group.tryFromTokens s.toks = .ok none := by
      unfold Group.tryFromTokens
      rw [hp]
    have hfi : Element.fromIdn s = .fatal ⟨s.toks.span, msg ("Expected element.")⟩ s := by
      unfold Element.fromIdn
      rw [htry]
      simp only []
      rw [Toks.next_none hp]
    refine ⟨by rw [hfi]; simp, by rw [htry]; simp, ?_⟩
    intro el s' h
    rw [hfi] at h
    simp at h
  | cons x xs =>
    have hp : s.toks.peek = some x := by rw [Toks.peek_eq_head, hv]; rfl
    have hxs : ((s.toks.next).2).view = xs := Toks.next_view hv
    rw [hv] at hbal
    cases x with
    | delimiter d =>
      simp only [scanDepth] at hbal
      cases hdo : d.isOpen with
      | false =>
        simp only [hdo, Bool.false_eq_true, if_false] at hbal
        simp at hbal
      | true =>
        simp only [hdo, eq_self_iff_true, if_true] at hbal
        obtain ⟨g, t', hgs, hb⟩ :=
          groupScan_balanced_aux ((s.toks.next).2).size 1 (s.toks.next).2
            (s.toks.next).2 d (Nat.le_refl _) (Nat.le_refl _) (by rw [hxs]; exact hbal)
        have htry : Group.tryFromTokens s.toks = .ok (some (g, t')) := by
          unfold Group.tryFromTokens
          rw [hp]
          simp only []
          rw [hgs]
        have hfi : Element.fromIdn s = .ok (.group g) { s with toks := t' } := by
          unfold Element.fromIdn
          rw [htry]
        refine ⟨by rw [hfi]; simp, by rw [htry]; simp, ?_⟩
        intro el s' h
        rw [hfi] at h
        simp only [RRes.ok.injEq] at h
        obtain ⟨-, h⟩ := h
        subst h
        exact hb
    | number x0 =>
      have hfi := Element.fromIdn_front_nondelim hv (fun d h => Token.noConfusion h)
      have htry : Group.tryFromTokens s.toks = .ok none := by
        unfold Group.tryFromTokens
        rw [hp]
      refine ⟨by rw [hfi]; simp, by rw [htry]; simp, ?_⟩
      intro el s' h
      rw [hfi] at h
      simp only [RRes.ok.injEq] at h
      obtain ⟨-, h⟩ := h
      subst h
      show scanDepth ((s.toks.next).2).view 0 = some 0
      rw [hxs]
      simp only [scanDepth] at hbal
      exact hbal
    | stringLiteral x0 =>
      have hfi := Element.fromIdn_front_nondelim hv (fun d h => Token.noConfusion h)
      have htry : Group.tryFromTokens s.toks = .ok none := by
        unfold Group.tryFromTokens
        rw [hp]
      refine ⟨by rw [hfi]; simp, by rw [htry]; simp, ?_⟩
      intro el s' h
      rw [hfi] at h
      simp only [RRes.ok.injEq] at h
      obtain ⟨-, h⟩ := h
      subst h
      show scanDepth ((s.toks.next).2).view 0 = some 0
      rw [hxs]
      simp only [scanDepth] at hbal
      exact hbal
    | symbol x0 =>
      have hfi := Element.fromIdn_front_nondelim hv (fun d h => Token.noConfusion h)
      have htry : Group.tryFromTokens s.toks = .ok none := by
        unfold Group.tryFromTokens
        rw [hp]
      refine ⟨by rw [hfi]; simp, by rw [htry]; simp, ?_⟩
      intro el s' h
      rw [hfi] at h
      simp only [RRes.ok.injEq] at h
      obtain ⟨-, h⟩ := h
      subst h
      show scanDepth ((s.toks.next).2).view 0 = some 0
      rw [hxs]
      simp only [scanDepth] at hbal
      exact hbal
    | word x0 =>
      have hfi := Element.fromIdn_front_nondelim hv (fun d h => Token.noConfusion h)
      have htry : Group.tryFromTokens s.toks = .ok none := by
        unfold Group.tryFromTokens
        rw [hp]
      refine ⟨by rw [hfi]; simp, by rw [htry]; simp, ?_⟩
      intro el s' h
      rw [hfi] at h
      simp only [RRes.ok.injEq] at h
      obtain ⟨-, h⟩ := h
      subst h
      show scanDepth ((s.toks.next).2).view 0 = some 0
      rw [hxs]
      simp only [scanDepth] at hbal
      exact hbal

theorem scanDepth_append : ∀ (l₁ l₂ : List Token) (n : Nat),
    scanDepth (l₁ ++ l₂) n =
      (match scanDepth l₁ n with | none => none | some k => scanDepth l₂ k) := by
  intro l₁
  induction l₁ with
  | nil => intro l₂ n; rfl
  | cons x xs ih =>
    intro l₂ n
    cases x with
    | delimiter d =>
      simp only [List.cons_append, scanDepth]
      cases hdo : d.isOpen with
      | true =>
        simp only [eq_self_iff_true, if_true]
        exact ih l₂ (n + 1)
      | false =>
        simp only [Bool.false_eq_true, if_false]
        cases n with
        | zero => rfl
        | succ m => exact ih l₂ m
    | number x0 => simp only [List.cons_append, scanDepth]; exact ih l₂ n
    | stringLiteral x0 => simp only [List.cons_append, scanDepth]; exact ih l₂ n
    | symbol x0 => simp only [List.cons_append, scanDepth]; exact ih l₂ n
    | word x0 => simp only [List.cons_append, scanDepth]; exact ih l₂ n

theorem scanDepth_append_nondelim {l : List Token} {t : Token}
    (hnd : ∀ d, t ≠ .delimiter d) (n : Nat) :
    scanDepth (l ++ [t]) n = scanDepth l n := by
  rw [scanDepth_append]
  cases hl : scanDepth l n with
  | none => rfl
  | some k =>
    cases t with
    | delimiter d => exact absurd rfl (hnd d)
    | number x0 => rfl
    | stringLiteral x0 => rfl
    | symbol x0 => rfl
    | word x0 => rfl

theorem scanDepth_append_open {l : List Token} {d : Delimiter}
    (hdo : d.isOpen = true) {n k : Nat} (h : scanDepth l n = some k) :
    scanDepth (l ++ [.delimiter d]) n = some (k + 1) := by
  rw [scanDepth_append, h]
  simp only [scanDepth, hdo, eq_self_iff_true, if_true]

theorem scanDepth_append_close {l : List Token} {d : Delimiter}
    (hdo : d.isOpen = false) {n k : Nat} (h : scanDepth l n = some (k + 1)) :
    scanDepth (l ++ [.delimiter d]) n = some k := by
  rw [scanDepth_append, h]
  simp only [scanDepth, hdo, Bool.false_eq_true, if_false]

theorem readString_shape {rest : List Char} {pos : Pos} {errors es : List Error}
    {tk : Token} {r : List Char} {p : Pos}
    (h : readString rest pos errors = (es, .ok (tk, r, p))) :
    ∀ d, tk ≠ .delimiter d := by
  unfold readString at h
  repeat' split at h
  all_goals simp at h
  all_goals
    obtain ⟨-, h, -⟩ := h
  all_goals subst h
  all_goals intro d hd
  all_goals cases hd

theorem readNumber_shape {rest : List Char} {pos : Pos}
    {tk : Token} {r : List Char} {p : Pos}
    (h : readNumber rest pos = .ok (tk, r, p)) :
    ∀ d, tk ≠ .delimiter d := by
  unfold readNumber at h
  repeat' split at h
  all_goals try simp at h
  case isTrue.h_2 =>
    rename_i ds r2 p2 heq
    by_cases hc : peekCharExact 'e' r2 = true ∨ peekCharExact 'E' r2 = true
    · rw [if_pos hc] at h
      repeat' split at h
      all_goals simp at h
      all_goals
        obtain ⟨h, -⟩ := h
        subst h
        intro d hd
        cases hd
    · rw [if_neg hc] at h
      repeat' split at h
      all_goals simp at h
      all_goals
        obtain ⟨h, -⟩ := h
        subst h
        intro d hd
        cases hd
  case isFalse.h_2.isTrue.h_2 =>
    rename_i ds r2 p2 heq
    by_cases hc : peekCharExact 'e' r2 = true ∨ peekCharExact 'E' r2 = true
    · rw [if_pos hc] at h
      repeat' split at h
      all_goals simp at h
      all_goals
        obtain ⟨h, -⟩ := h
        subst h
        intro d hd
        cases hd
    · rw [if_neg hc] at h
      repeat' split at h
      all_goals simp at h
      all_goals
        obtain ⟨h, -⟩ := h
        subst h
        intro d hd
        cases hd
  case isFalse.h_2.isFalse =>
    rename_i ds r2 p2 heq hx
    by_cases hc : peekCharExact 'e' r2 = true ∨ peekCharExact 'E' r2 = true
    · rw [if_pos hc] at h
      repeat' split at h
      all_goals simp at h
      all_goals
        obtain ⟨h, -⟩ := h
        subst h
        intro d hd
        cases hd
    · rw [if_neg hc] at h
      repeat' split at h
      all_goals simp at h
      all_goals
        obtain ⟨h, -⟩ := h
        subst h
        intro d hd
        cases hd

theorem readWordToken_shape {rest : List Char} {pos : Pos}
    {tk : Token} {r : List Char} {p : Pos}
    (h : readWordToken rest pos = .ok (tk, r, p)) :
    ∀ d, tk ≠ .delimiter d := by
  unfold readWordToken at h
  repeat' split at h
  all_goals simp at h
  all_goals
    obtain ⟨h, -⟩ := h
    subst h
    intro d hd
    cases hd

theorem readSymbolToken_shape {rest : List Char} {pos : Pos}
    {tk : Token} {r : List Char} {p : Pos}
    (h : readSymbolToken rest pos = .ok (tk, r, p)) :
    ∀ d, tk ≠ .delimiter d := by
  unfold readSymbolToken at h
  repeat' split at h
  all_goals simp at h
  all_goals
    obtain ⟨h, -⟩ := h
    subst h
    intro d hd
    cases hd

theorem readDelimiter_depth {rest : List Char} {pos : Pos} {tokens : List Token}
    {ods : List Delimiter} {r : List Char} {p : Pos} {tks' : List Token}
    {ods' : List Delimiter}
    (h : readDelimiter rest pos tokens ods = .ok (r, p, tks', ods'))
    (hinv : scanDepth tokens 0 = some ods.length) :
    scanDepth tks' 0 = some ods'.length := by
  unfold readDelimiter at h
  cases hc : readChar rest pos with
  | error e =>
    rw [hc] at h
    simp at h
  | ok q =>
    obtain ⟨c, sp, rest1, pos1⟩ := q
    rw [hc] at h
    simp only [] at h
    by_cases hop : c = '(' ∨ c = '[' ∨ c = '{'
    · rw [if_pos hop] at h
      simp only [Except.ok.injEq, Prod.mk.injEq] at h
      obtain ⟨-, -, h1, h2⟩ := h
      subst h1
      subst h2
      have hdo : (⟨sp, c⟩ : Delimiter).isOpen = true := by
        unfold Delimiter.isOpen
        rcases hop with hcc | hcc | hcc <;> simp [hcc]
      rw [List.length_append, List.length_cons, List.length_nil]
      exact scanDepth_append_open hdo hinv
    · rw [if_neg hop] at h
      by_cases hcl : c = ')' ∨ c = ']' ∨ c = '}'
      · rw [if_pos hcl] at h
        cases hgl : ods.getLast? with
        | none =>
          rw [hgl] at h
          simp at h
        | some d =>
          rw [hgl] at h
          simp only [] at h
          by_cases hrev : d.asRevChar = c
          · rw [if_pos hrev] at h
            simp only [Except.ok.injEq, Prod.mk.injEq] at h
            obtain ⟨-, -, h1, h2⟩ := h
            subst h1
            subst h2
            have hdo : (⟨sp, c⟩ : Delimiter).isOpen = false := by
              rcases hcl with hcc | hcc | hcc <;> subst hcc <;> rfl
            have hne : ods ≠ [] := by
              intro he
              rw [he] at hgl
              simp at hgl
            have hlen : ods.length = ods.dropLast.length + 1 := by
              rw [List.length_dropLast]
              cases hl : ods.length with
              | zero => exact absurd (List.length_eq_zero.mp hl) hne
              | succ k => omega
            rw [hlen] at hinv
            exact scanDepth_append_close hdo hinv
          · rw [if_neg hrev] at h
            simp at h
      · rw [if_neg hcl] at h
        simp at h

theorem lexLoop_inv : ∀ (n : Nat) (rest : List Char) (st st' : LexState),
    rest.length ≤ n →
    scanDepth st.tokens 0 = some st.openDelims.length →
    lexLoop rest st = (st', none) →
    scanDepth st'.tokens 0 = some st'.openDelims.length := by
  intro n
  induction n with
  | zero =>
    intro rest st st' hn hinv h
    have hr : rest = [] := List.length_eq_zero.mp (by omega)
    subst hr
    rw [lexLoop] at h
    simp only [Prod.mk.injEq] at h
    obtain ⟨h, -⟩ := h
    subst h
    exact hinv
  | succ n ih =>
    intro rest st st' hn hinv h
    cases rest with
    | nil =>
      rw [lexLoop] at h
      simp only [Prod.mk.injEq] at h
      obtain ⟨h, -⟩ := h
      subst h
      exact hinv
    | cons c rest0 =>
      rw [lexLoop] at h
      by_cases h1 : c = '(' ∨ c = '[' ∨ c = '{' ∨ c = ')' ∨ c = ']' ∨ c = '}'
      · rw [if_pos h1] at h
        split at h
        · simp at h
        · rename_i r0 p0 tks0 ods0 heq
          refine ih r0 _ st' ?_ ?_ h
          · have := readDelimiter_len heq
            simp only [List.length_cons] at hn this ⊢
            omega
          · show scanDepth tks0 0 = some ods0.length
            exact readDelimiter_depth heq hinv
      · rw [if_neg h1] at h
        by_cases h2 : c = '"' ∨ c = '\''
        · rw [if_pos h2] at h
          split at h
          · simp at h
          · rename_i errs tk r0 p0 heq
            refine ih r0 _ st' ?_ ?_ h
            · have := readString_len heq
              simp only [List.length_cons] at hn this ⊢
              omega
            · show scanDepth (st.tokens ++ [tk]) 0 = some st.openDelims.length
              rw [scanDepth_append_nondelim (readString_shape heq)]
              exact hinv
        · rw [if_neg h2] at h
          by_cases h3 : c = '/' ∧ peekStr ['/', '/'] (c :: rest0)
          · rw [if_pos h3] at h
            split at h
            · simp at h
            · rename_i r0 p0 heq
              refine ih r0 _ st' ?_ ?_ h
              · have := readComment_len heq
                simp only [List.length_cons] at hn this ⊢
                omega
              · exact hinv
          · rw [if_neg h3] at h
            by_cases h4 : c = '/' ∧ peekStr ['/', '*'] (c :: rest0)
            · rw [if_pos h4] at h
              split at h
              · simp at h
              · rename_i r0 p0 heq
                refine ih r0 _ st' ?_ ?_ h
                · have := readCommentMultiline_len heq
                  simp only [List.length_cons] at hn this ⊢
                  omega
                · exact hinv
            · rw [if_neg h4] at h
              by_cases h5 : (c = '.' ∧ peekNumberDecimal (c :: rest0)) ∨ c.isDigit
              · rw [if_pos h5] at h
                split at h
                · simp at h
                · rename_i tk r0 p0 heq
                  refine ih r0 _ st' ?_ ?_ h
                  · have := readNumber_len heq
                    simp only [List.length_cons] at hn this ⊢
                    omega
                  · show scanDepth (st.tokens ++ [tk]) 0 = some st.openDelims.length
                    rw [scanDepth_append_nondelim (readNumber_shape heq)]
                    exact hinv
              · rw [if_neg h5] at h
                by_cases h6 : isWordStart c
                · rw [if_pos h6] at h
                  split at h
                  · simp at h
                  · rename_i tk r0 p0 heq
                    refine ih r0 _ st' ?_ ?_ h
                    · have := readWordToken_len heq
                      simp only [List.length_cons] at hn this ⊢
                      omega
                    · show scanDepth (st.tokens ++ [tk]) 0 = some st.openDelims.length
                      rw [scanDepth_append_nondelim (readWordToken_shape heq)]
                      exact hinv
                · rw [if_neg h6] at h
                  by_cases h7 : c.isWhitespace
                  · rw [if_pos h7] at h
                    split at h
                    · simp at h
                    · rename_i c0 sp0 r0 p0 heq
                      refine ih r0 _ st' ?_ ?_ h
                      · have := readChar_len heq
                        simp only [List.length_cons] at hn this ⊢
                        omega
                      · exact hinv
                  · rw [if_neg h7] at h
                    split at h
                    · simp at h
                    · rename_i tk r0 p0 heq
                      refine ih r0 _ st' ?_ ?_ h
                      · have := readSymbolToken_len heq
                        simp only [List.length_cons] at hn this ⊢
                        omega
                      · show scanDepth (st.tokens ++ [tk]) 0 = some st.openDelims.length
                        rw [scanDepth_append_nondelim (readSymbolToken_shape heq)]
                        exact hinv

theorem Toks.new_view (sp : Span) (l : List Token) (bid : Nat) :
    (Toks.new sp l bid).view = l := by
  unfold Toks.new
  rw [Toks.updateSpan_view]
  unfold Toks.view
  simp

theorem lex_balanced {input : List Char} {t : Toks} (h : lex input = .ok t) :
    scanDepth t.view 0 = some 0 := by
  unfold lex at h
  cases hr : lexRun input with
  | mk st oe =>
    rw [hr] at h
    cases oe with
    | some e => simp at h
    | none =>
      unfold lexRun at hr
      cases hl : lexLoop input ⟨[], [], [], Pos.zero⟩ with
      | mk st0 oe0 =>
        rw [hl] at hr
        cases oe0 with
        | some e0 => simp at hr
        | none =>
          simp only [Prod.mk.injEq] at hr
          obtain ⟨hst, -⟩ := hr
          subst hst
          simp only [] at h
          cases hlen : (st0.errors ++ st0.openDelims.map unmatchedError).length with
          | succ k =>
            rw [hlen] at h
            simp at h
          | zero =>
            rw [hlen] at h
            simp only [] at h
            simp only [Except.ok.injEq] at h
            subst h
            rw [Toks.new_view]
            have hinv := lexLoop_inv input.length input ⟨[], [], [], Pos.zero⟩ st0
              (Nat.le_refl _) (by simp [scanDepth]) hl
            have hods : st0.openDelims = [] := by
              rw [List.length_append, List.length_map] at hlen
              exact List.length_eq_zero.mp (by omega)
            rw [hods] at hinv
            exact hinv

def balSp (i : Nat) : Span := ⟨⟨i, 1, i + 1⟩, ⟨i + 1, 1, i + 2⟩⟩

def balToks : List Token :=
  [Token.delimiter ⟨balSp 0, '('⟩, Token.word ⟨balSp 1, ['a']⟩,
   Token.delimiter ⟨balSp 2, ')'⟩]

/-- C9: a successful lex only returns delimiter-balanced token streams, and
on a balanced window reading an element never panics: `Group::try_from_tokens`
finds the matching close delimiter before the scan's internal
`next().unwrap()` can see an exhausted window, the `Delimiter` arm of
`Element::from_idn` (the `unreachable!`, modelled as a panic) is never taken,
and the window left over after a successful element read is balanced again. -/
theorem lexed_buffers_read_panic_free :
    (∀ (input : List Char) (t : Toks), lex input = .ok t → scanDepth t.view 0 = some 0) ∧
    (∀ s : RState, scanDepth s.toks.view 0 = some 0 →
       Element.fromIdn s ≠ .panic ∧
       Group.tryFromTokens s.toks ≠ .panic ∧
       (∀ el s', Element.fromIdn s = .ok el s' → scanDepth s'.toks.view 0 = some 0)) :=
  ⟨fun input t h => lex_balanced h, fun s h => Element.fromIdn_balanced s h⟩

theorem lexed_buffers_read_panic_free_witness :
    Element.fromIdn ⟨Toks.new (balSp 0) balToks 0, []⟩ ≠ .panic ∧
    Group.tryFromTokens (Toks.new (balSp 0) balToks 0) ≠ .panic ∧
    (∀ el s', Element.fromIdn ⟨Toks.new (balSp 0) balToks 0, []⟩ = .ok el s' →
       scanDepth s'.toks.view 0 = some 0) :=
  lexed_buffers_read_panic_free.2 ⟨Toks.new (balSp 0) balToks 0, []⟩
    (by simp [Toks.new_view, balToks, balSp, scanDepth, Delimiter.isOpen])

/-! ### C6: comma-separated versus newline-separated list items -/

/-- The accumulation loop of `Vec::from_idn`
(`while let Some(item) = list.read_next()?`). -/
def vecLoop (d : RState → RRes α) (s : RState) (acc : List α) : RRes (List α) :=
  match h : listNext s with
  | .panic => .panic
  | .ok none => .ok acc s
  | .ok (some (item, s')) =>
    match readToEnd d ⟨item, s'.errors⟩ with
    | .panic => .panic
    | .fatal e si => .fatal e ⟨s'.toks, si.errors⟩
    | .ok a si => vecLoop d ⟨s'.toks, si.errors⟩ (acc ++ [a])
termination_by s.toks.size
decreasing_by
  all_goals exact listNext_size h

/-- `Vec::from_idn`: a `[`-group whose list items each decode (via
`read_to_end`) as one element. -/
def vecFromIdn (d : RState → RRes α) (s : RState) : RRes (List α) :=
  match readGroup '[' s with
  | .panic => .panic
  | .fatal e s' => .fatal e s'
  | .ok g s' =>
    match vecLoop d ⟨g.contents, s'.errors⟩ [] with
    | .panic => .panic
    | .fatal e sk => .fatal e ⟨s'.toks, sk.errors⟩
    | .ok xs sk => .ok xs ⟨s'.toks, sk.errors⟩

theorem vecLoop_nil {d : RState → RRes α} {s : RState} {acc : List α}
    (h : listNext s = .ok none) : vecLoop d s acc = .ok acc s := by
  rw [vecLoop]
  split
  · rename_i heq
    rw [h] at heq
    simp at heq
  · rfl
  · rename_i item s' heq
    rw [h] at heq
    simp at heq

theorem vecLoop_cons {d : RState → RRes α} {s s' si : RState} {item : Toks}
    {a : α} {acc : List α}
    (h1 : listNext s = .ok (some (item, s')))
    (h2 : readToEnd d ⟨item, s'.errors⟩ = .ok a si) :
    vecLoop d s acc = vecLoop d ⟨s'.toks, si.errors⟩ (acc ++ [a]) := by
  rw [vecLoop]
  split
  · rename_i heq
    rw [h1] at heq
    simp at heq
  · rename_i heq
    rw [h1] at heq
    simp at heq
  · rename_i item0 s0 heq
    rw [h1] at heq
    simp only [PRes.ok.injEq, Option.some.injEq, Prod.mk.injEq] at heq
    obtain ⟨hi, hs⟩ := heq
    subst hi
    subst hs
    simp only [h2]

theorem listNextLoop_comma {tokens0 : Toks} {s s' : RState} {sym : Symbol}
    (h : Element.tryFromIdn s = .ok (some (.symbol sym, s'))) (hv : sym.value = ',') :
    listNextLoop tokens0 s = .ok ((tokens0.truncateBefore s'.toks).pop, s') := by
  rw [listNextLoop]
  split
  · rename_i heq
    rw [h] at heq
    simp at heq
  · rename_i heq
    rw [h] at heq
    simp at heq
  · rename_i el s0 heq
    rw [h] at heq
    simp only [PRes.ok.injEq, Option.some.injEq, Prod.mk.injEq] at heq
    obtain ⟨he, hs⟩ := heq
    subst hs
    rw [if_pos (by rw [← he]; simp [hv])]

/-- The comma test of `ListReader::next` on a consumed element. -/
def isCommaElement : Element → Bool
  | .symbol sym => sym.value == ','
  | _ => false

theorem listNextLoop_newline {tokens0 : Toks} {s s' : RState} {el : Element}
    {tok : Token}
    (h : Element.tryFromIdn s = .ok (some (el, s')))
    (hnc : isCommaElement el = false)
    (hp : s'.toks.peek = some tok)
    (hl : el.span.lastLine < tok.span.start.line) :
    listNextLoop tokens0 s = .ok (tokens0.truncateBefore s'.toks, s') := by
  rw [listNextLoop]
  split
  · rename_i heq
    rw [h] at heq
    simp at heq
  · rename_i heq
    rw [h] at heq
    simp at heq
  · rename_i el0 s0 heq
    rw [h] at heq
    simp only [PRes.ok.injEq, Option.some.injEq, Prod.mk.injEq] at heq
    obtain ⟨he, hs⟩ := heq
    subst he
    subst hs
    cases el with
    | symbol sym =>
      simp only [isCommaElement] at hnc
      rw [if_neg (by simp [hnc])]
      rw [hp]
      simp only []
      rw [if_pos hl]
    | number n =>
      rw [if_neg (by simp)]
      rw [hp]
      simp only []
      rw [if_pos hl]
    | stringLiteral sl =>
      rw [if_neg (by simp)]
      rw [hp]
      simp only []
      rw [if_pos hl]
    | word w =>
      rw [if_neg (by simp)]
      rw [hp]
      simp only []
      rw [if_pos hl]
    | group g =>
      rw [if_neg (by simp)]
      rw [hp]
      simp only []
      rw [if_pos hl]

def commaSp (i : Nat) : Span := ⟨⟨i, 1, i + 1⟩, ⟨i + 1, 1, i + 2⟩⟩

def commaToks : List Token :=
  [.delimiter ⟨commaSp 0, '['⟩,
   .number (.integer ⟨commaSp 1, 1⟩),
   .symbol ⟨commaSp 2, ','⟩,
   .number (.integer ⟨commaSp 3, 2⟩),
   .delimiter ⟨commaSp 4, ']'⟩]

def lineSp (i l : Nat) : Span := ⟨⟨i, l, 1⟩, ⟨i + 1, l, 2⟩⟩

def lineToks : List Token :=
  [.delimiter ⟨lineSp 0 1, '['⟩,
   .number (.integer ⟨lineSp 1 1, 1⟩),
   .number (.integer ⟨lineSp 2 2, 2⟩),
   .delimiter ⟨lineSp 3 2, ']'⟩]

set_option maxHeartbeats 1000000 in
theorem cStGroup : readGroup '[' ⟨Toks.new (commaSp 0) commaToks 0, []⟩ =
    .ok ⟨⟨commaSp 0, '['⟩, ⟨⟨⟨1,1,2⟩,⟨4,1,5⟩⟩, commaToks, 0, 1, 4⟩, ⟨commaSp 4, ']'⟩⟩
      ⟨⟨⟨⟨4,1,5⟩,⟨4,1,5⟩⟩, commaToks, 0, 5, 5⟩, []⟩ := by
  simp [commaToks, commaSp, Toks.new, Toks.updateSpan, Toks.view, Toks.peek, Toks.next,
    Toks.isEmpty, Toks.pop, Toks.truncateBefore, Element.tryFromIdn, Element.fromIdn,
    Group.tryFromTokens, groupScan, readGroup, Element.span, Token.span, Number.span,
    Span.union, Span.lastLine, Span.ofPos, Pos.min, Pos.max, Delimiter.isOpen,
    Delimiter.revChar, elementOfToken, describeChar, describeElement]

theorem cStItem1 : listNext ⟨⟨⟨⟨1,1,2⟩,⟨4,1,5⟩⟩, commaToks, 0, 1, 4⟩, []⟩ =
    .ok (some (⟨⟨⟨1,1,2⟩,⟨2,1,3⟩⟩, commaToks, 0, 1, 2⟩,
      ⟨⟨⟨⟨3,1,4⟩,⟨4,1,5⟩⟩, commaToks, 0, 3, 4⟩, []⟩)) := by
  simp [commaToks, commaSp, Toks.updateSpan, Toks.view, Toks.peek, Toks.next,
    Toks.isEmpty, Toks.pop, Toks.truncateBefore, Element.tryFromIdn, Element.fromIdn,
    Group.tryFromTokens, groupScan, Element.span, Token.span, Number.span,
    Span.union, Span.lastLine, Span.ofPos, Pos.min, Pos.max, Delimiter.isOpen,
    Delimiter.revChar, elementOfToken, listNext, listNextLoop]

theorem cStVal1 : readToEnd (intFromIdn 9223372036854775807)
      ⟨⟨⟨⟨1,1,2⟩,⟨2,1,3⟩⟩, commaToks, 0, 1, 2⟩, []⟩ =
    .ok (1 : Int) ⟨⟨⟨⟨1,1,2⟩,⟨1,1,2⟩⟩, commaToks, 0, 2, 2⟩, []⟩ := by
  simp [commaToks, commaSp, Toks.updateSpan, Toks.view, Toks.peek, Toks.next,
    Toks.isEmpty, Toks.drain, Element.tryFromIdn, Element.fromIdn,
    Group.tryFromTokens, groupScan, Element.span, Token.span, Number.span,
    Span.union, Span.ofPos, Pos.min, Pos.max, Delimiter.isOpen,
    elementOfToken, readToEnd, finish, intFromIdn, tryReadSymbol, integerFromIdn,
    numberFromIdn, readElementAs, msg, describeChar]

theorem cStItem2 : listNext ⟨⟨⟨⟨3,1,4⟩,⟨4,1,5⟩⟩, commaToks, 0, 3, 4⟩, []⟩ =
    .ok (some (⟨⟨⟨3,1,4⟩,⟨4,1,5⟩⟩, commaToks, 0, 3, 4⟩,
      ⟨⟨⟨⟨3,1,4⟩,⟨3,1,4⟩⟩, commaToks, 0, 4, 4⟩, []⟩)) := by
  simp [commaToks, commaSp, Toks.updateSpan, Toks.view, Toks.peek, Toks.next,
    Toks.isEmpty, Toks.pop, Toks.truncateBefore, Element.tryFromIdn, Element.fromIdn,
    Group.tryFromTokens, groupScan, Element.span, Token.span, Number.span,
    Span.union, Span.lastLine, Span.ofPos, Pos.min, Pos.max, Delimiter.isOpen,
    Delimiter.revChar, elementOfToken, listNext, listNextLoop]

theorem cStVal2 : readToEnd (intFromIdn 9223372036854775807)
      ⟨⟨⟨⟨3,1,4⟩,⟨4,1,5⟩⟩, commaToks, 0, 3, 4⟩, []⟩ =
    .ok (2 : Int) ⟨⟨⟨⟨3,1,4⟩,⟨3,1,4⟩⟩, commaToks, 0, 4, 4⟩, []⟩ := by
  simp [commaToks, commaSp, Toks.updateSpan, Toks.view, Toks.peek, Toks.next,
    Toks.isEmpty, Toks.drain, Element.tryFromIdn, Element.fromIdn,
    Group.tryFromTokens, groupScan, Element.span, Token.span, Number.span,
    Span.union, Span.ofPos, Pos.min, Pos.max, Delimiter.isOpen,
    elementOfToken, readToEnd, finish, intFromIdn, tryReadSymbol, integerFromIdn,
    numberFromIdn, readElementAs, msg, describeChar]

theorem cStDone : ∀ es : ErrorList,
    listNext ⟨⟨⟨⟨3,1,4⟩,⟨3,1,4⟩⟩, commaToks, 0, 4, 4⟩, es⟩ = .ok none := by
  intro es
  simp [commaToks, Toks.isEmpty, Toks.view, listNext]

theorem lStGroup : readGroup '[' ⟨Toks.new (lineSp 0 1) lineToks 0, []⟩ =
    .ok ⟨⟨lineSp 0 1, '['⟩, ⟨⟨⟨1,1,1⟩,⟨3,2,2⟩⟩, lineToks, 0, 1, 3⟩, ⟨lineSp 3 2, ']'⟩⟩
      ⟨⟨⟨⟨3,2,1⟩,⟨3,2,1⟩⟩, lineToks, 0, 4, 4⟩, []⟩ := by
  simp [lineToks, lineSp, Toks.new, Toks.updateSpan, Toks.view, Toks.peek, Toks.next,
    Toks.isEmpty, Toks.pop, Toks.truncateBefore, Element.tryFromIdn, Element.fromIdn,
    Group.tryFromTokens, groupScan, readGroup, Element.span, Token.span, Number.span,
    Span.union, Span.lastLine, Span.ofPos, Pos.min, Pos.max, Delimiter.isOpen,
    Delimiter.revChar, elementOfToken, describeChar, describeElement]

theorem lStItem1 : listNext ⟨⟨⟨⟨1,1,1⟩,⟨3,2,2⟩⟩, lineToks, 0, 1, 3⟩, []⟩ =
    .ok (some (⟨⟨⟨1,1,1⟩,⟨2,1,2⟩⟩, lineToks, 0, 1, 2⟩,
      ⟨⟨⟨⟨2,2,1⟩,⟨3,2,2⟩⟩, lineToks, 0, 2, 3⟩, []⟩)) := by
  simp [lineToks, lineSp, Toks.updateSpan, Toks.view, Toks.peek, Toks.next,
    Toks.isEmpty, Toks.pop, Toks.truncateBefore, Element.tryFromIdn, Element.fromIdn,
    Group.tryFromTokens, groupScan, Element.span, Token.span, Number.span,
    Span.union, Span.lastLine, Span.ofPos, Pos.min, Pos.max, Delimiter.isOpen,
    Delimiter.revChar, elementOfToken, listNext, listNextLoop]

theorem lStVal1 : readToEnd (intFromIdn 9223372036854775807)
      ⟨⟨⟨⟨1,1,1⟩,⟨2,1,2⟩⟩, lineToks, 0, 1, 2⟩, []⟩ =
    .ok (1 : Int) ⟨⟨⟨⟨1,1,1⟩,⟨1,1,1⟩⟩, lineToks, 0, 2, 2⟩, []⟩ := by
  simp [lineToks, lineSp, Toks.updateSpan, Toks.view, Toks.peek, Toks.next,
    Toks.isEmpty, Toks.drain, Element.tryFromIdn, Element.fromIdn,
    Group.tryFromTokens, groupScan, Element.span, Token.span, Number.span,
    Span.union, Span.ofPos, Pos.min, Pos.max, Delimiter.isOpen,
    elementOfToken, readToEnd, finish, intFromIdn, tryReadSymbol, integerFromIdn,
    numberFromIdn, readElementAs, msg, describeChar]

theorem lStItem2 : listNext ⟨⟨⟨⟨2,2,1⟩,⟨3,2,2⟩⟩, lineToks, 0, 2, 3⟩, []⟩ =
    .ok (some (⟨⟨⟨2,2,1⟩,⟨3,2,2⟩⟩, lineToks, 0, 2, 3⟩,
      ⟨⟨⟨⟨2,2,1⟩,⟨2,2,1⟩⟩, lineToks, 0, 3, 3⟩, []⟩)) := by
  simp [lineToks, lineSp, Toks.updateSpan, Toks.view, Toks.peek, Toks.next,
    Toks.isEmpty, Toks.pop, Toks.truncateBefore, Element.tryFromIdn, Element.fromIdn,
    Group.tryFromTokens, groupScan, Element.span, Token.span, Number.span,
    Span.union, Span.lastLine, Span.ofPos, Pos.min, Pos.max, Delimiter.isOpen,
    Delimiter.revChar, elementOfToken, listNext, listNextLoop]

theorem lStVal2 : readToEnd (intFromIdn 9223372036854775807)
      ⟨⟨⟨⟨2,2,1⟩,⟨3,2,2⟩⟩, lineToks, 0, 2, 3⟩, []⟩ =
    .ok (2 : Int) ⟨⟨⟨⟨2,2,1⟩,⟨2,2,1⟩⟩, lineToks, 0, 3, 3⟩, []⟩ := by
  simp [lineToks, lineSp, Toks.updateSpan, Toks.view, Toks.peek, Toks.next,
    Toks.isEmpty, Toks.drain, Element.tryFromIdn, Element.fromIdn,
    Group.tryFromTokens, groupScan, Element.span, Token.span, Number.span,
    Span.union, Span.ofPos, Pos.min, Pos.max, Delimiter.isOpen,
    elementOfToken, readToEnd, finish, intFromIdn, tryReadSymbol, integerFromIdn,
    numberFromIdn, readElementAs, msg, describeChar]

theorem lStDone : ∀ es : ErrorList,
    listNext ⟨⟨⟨⟨2,2,1⟩,⟨2,2,1⟩⟩, lineToks, 0, 3, 3⟩, es⟩ = .ok none := by
  intro es
  simp [lineToks, Toks.isEmpty, Toks.view, listNext]

theorem lStElem1 : Element.tryFromIdn ⟨⟨⟨⟨1,1,1⟩,⟨3,2,2⟩⟩, lineToks, 0, 1, 3⟩, []⟩ =
    .ok (some (.number (.integer ⟨lineSp 1 1, 1⟩),
      ⟨⟨⟨⟨2,2,1⟩,⟨3,2,2⟩⟩, lineToks, 0, 2, 3⟩, []⟩)) := by
  simp [lineToks, lineSp, Toks.updateSpan, Toks.view, Toks.peek, Toks.next,
    Toks.isEmpty, Element.tryFromIdn, Element.fromIdn,
    Group.tryFromTokens, groupScan, Element.span, Token.span, Number.span,
    Span.union, Span.ofPos, Pos.min, Pos.max, Delimiter.isOpen, elementOfToken]

/-- C6: `ListReader::next` ends an item at a bare `,` symbol, excluding the
comma from the item's window (truncate-then-pop), and equivalently ends it
when the next unconsumed token starts on a strictly later source line than
the consumed element's last line (truncate only); consequently the
comma-separated stream `[1, 2]` and the one-item-per-line stream decode to
the identical value `[1, 2]` with no errors. -/
theorem list_comma_newline_equivalent :
    (∀ (tokens0 : Toks) (s s' : RState) (sym : Symbol),
       Element.tryFromIdn s = .ok (some (.symbol sym, s')) → sym.value = ',' →
       listNextLoop tokens0 s = .ok ((tokens0.truncateBefore s'.toks).pop, s')) ∧
    (∀ (tokens0 : Toks) (s s' : RState) (el : Element) (tok : Token),
       Element.tryFromIdn s = .ok (some (el, s')) →
       isCommaElement el = false →
       s'.toks.peek = some tok →
       el.span.lastLine < tok.span.start.line →
       listNextLoop tokens0 s = .ok (tokens0.truncateBefore s'.toks, s')) ∧
    (match vecFromIdn (intFromIdn 9223372036854775807)
        ⟨Toks.new (commaSp 0) commaToks 0, []⟩ with
      | .ok xs s => xs = [(1 : Int), 2] ∧ s.errors = []
      | _ => False) ∧
    (match vecFromIdn (intFromIdn 9223372036854775807)
        ⟨Toks.new (lineSp 0 1) lineToks 0, []⟩ with
      | .ok xs s => xs = [(1 : Int), 2] ∧ s.errors = []
      | _ => False) := by
  refine ⟨?_, ?_, ?_, ?_⟩
  · intro tokens0 s s' sym h hv
    exact listNextLoop_comma h hv
  · intro tokens0 s s' el tok h hnc hp hl
    exact listNextLoop_newline h hnc hp hl
  · simp only [vecFromIdn, cStGroup]
    rw [vecLoop_cons cStItem1 cStVal1, vecLoop_cons cStItem2 cStVal2,
      vecLoop_nil (cStDone _)]
    simp
  · simp only [vecFromIdn, lStGroup]
    rw [vecLoop_cons lStItem1 lStVal1, vecLoop_cons lStItem2 lStVal2,
      vecLoop_nil (lStDone _)]
    simp

theorem list_comma_newline_equivalent_witness :
    listNextLoop (⟨⟨⟨1,1,1⟩,⟨3,2,2⟩⟩, lineToks, 0, 1, 3⟩ : Toks)
        ⟨⟨⟨⟨1,1,1⟩,⟨3,2,2⟩⟩, lineToks, 0, 1, 3⟩, []⟩ =
      .ok ((⟨⟨⟨1,1,1⟩,⟨3,2,2⟩⟩, lineToks, 0, 1, 3⟩ : Toks).truncateBefore
          (⟨⟨⟨2,2,1⟩,⟨3,2,2⟩⟩, lineToks, 0, 2, 3⟩ : Toks),
        ⟨⟨⟨⟨2,2,1⟩,⟨3,2,2⟩⟩, lineToks, 0, 2, 3⟩, []⟩) :=
  list_comma_newline_equivalent.2.1
    ⟨⟨⟨1,1,1⟩,⟨3,2,2⟩⟩, lineToks, 0, 1, 3⟩
    ⟨⟨⟨⟨1,1,1⟩,⟨3,2,2⟩⟩, lineToks, 0, 1, 3⟩, []⟩
    ⟨⟨⟨⟨2,2,1⟩,⟨3,2,2⟩⟩, lineToks, 0, 2, 3⟩, []⟩
    (.number (.integer ⟨lineSp 1 1, 1⟩))
    (Token.number (.integer ⟨lineSp 2 2, 2⟩))
    lStElem1
    (by rfl)
    (by simp [lineToks, Toks.peek, Toks.view])
    (by simp [lineSp, Element.span, Token.span, Number.span, Span.lastLine])

end Idn
